import Mathlib

/-! ctkAbstractFactory: registration, lookup and lazy instantiation

A shallow embedding of `Libs/Core/ctkAbstractFactory.tpp`.

C++ objects live in stores indexed by their address:

* a `ctkAbstractFactoryItem` is reached through an `ItemRef`
  (`QSharedPointer<ctkAbstractFactoryItem>` is an `Option ItemRef`, `none`
  being the null pointer);
* a `HashType` held by a `QSharedPointer<HashType>` is reached through a
  `MapRef`, so that several factories can hold the very same map;
* a `ctkAbstractFactory` is reached through a `FacRef`; its
  `RegisteredItemMap` is a member held by value.

The pure virtual members of an item (`load`, `instanciator`) and the virtual
`loadErrorString` are not defined in this file of the library: every item
carries its own implementation of them, acting on the private state of the
concrete subclass (`derived`).

Calls of virtual members, `delete` and the diagnostics of `registerItem` are
recorded in `World.events`; `displayRegistrationStatus` returns the messages it
hands to the message handlers of Qt.
-/

set_option linter.dupNamespace false

namespace CTK

/-- A `QString` used as registration key. -/
abbrev Key := String

/-- Address of a `ctkAbstractFactoryItem`. -/
abbrev ItemRef := Nat

/-- Address of a `HashType` owned by a `QSharedPointer<HashType>`. -/
abbrev MapRef := Nat

/-- Address of a `ctkAbstractFactory`. -/
abbrev FacRef := Nat

/-- Address of an object of `BaseClassType`; a `BaseClassType*` is an
`Option Obj`, with `none` for the null pointer. -/
abbrev Obj := Nat

/-- The type `HashType` of both registration maps (a `QHash` from `QString` to
`QSharedPointer<ctkAbstractFactoryItem>`), as an association list. The order of
the list is the order of first insertion; it is not the iteration order of the
hash table, see `QHash.keys`. -/
abbrev HashType := List (Key × Option ItemRef)

/-- `QHash::find`: the value stored under `k`, `none` standing for
`constEnd()`. -/
def QHash.find : HashType → Key → Option (Option ItemRef)
  | [], _ => none
  | (k', v) :: m, k => if k' = k then some v else QHash.find m k

/-- `QHash::insert`: replaces the value when the key is already there and adds
the pair otherwise. -/
def QHash.insert : HashType → Key → Option ItemRef → HashType
  | [], k, v => [(k, v)]
  | (k', v') :: m, k, v =>
    if k' = k then (k, v) :: m else (k', v') :: QHash.insert m k v

/-- `QHash::keys`: all keys of the table, in the iteration order of the hash
table. A `QHash` keeps its items in an arbitrary order, fixed by the hash
function and the bucket layout and not by the history of insertions;
`hashOrder` stands for that order and rearranges the keys. -/
def QHash.keys (hashOrder : List Key → List Key) (m : HashType) : List Key :=
  hashOrder (m.map Prod.fst)

/-- The members of `ctkAbstractFactoryItem<BaseClassType>`, followed by the
state and the virtual members of the concrete subclass. -/
structure ctkAbstractFactoryItem where
  /-- `BaseClassType* Instance` -/
  Instance : Option Obj
  /-- `bool Verbose` -/
  Verbose : Bool
  /-- private state of the concrete subclass -/
  derived : Nat
  /-- `virtual bool load() = 0`: result and next subclass state -/
  load : Nat → Bool × Nat
  /-- `virtual QString loadErrorString() const` -/
  loadErrorString : Nat → String
  /-- `virtual BaseClassType* instanciator() = 0`: result and next subclass
  state -/
  instanciator : Nat → Option Obj × Nat

/-- The members of `ctkAbstractFactory<BaseClassType>`. -/
structure ctkAbstractFactory where
  /-- `HashType RegisteredItemMap` -/
  RegisteredItemMap : HashType
  /-- `QSharedPointer<HashType> SharedRegisteredItemMap` -/
  SharedRegisteredItemMap : Option MapRef
  /-- `bool Verbose` -/
  Verbose : Bool

/-- What the code does besides updating its members. -/
inductive Event
  /-- `_item->load()` was called on the item and returned `ok` -/
  | load (item : ItemRef) (ok : Bool)
  /-- `this->instanciator()` was called on the item and returned `result` -/
  | instanciator (item : ItemRef) (result : Option Obj)
  /-- `delete this->Instance` -/
  | destroy (item : ItemRef) (o : Obj)
  /-- `qDebug() << __FUNCTION__ << "key is empty or already exists:" << key
  << "; item: " << _item` -/
  | debugKeyEmptyOrExists (key : Key) (item : Option ItemRef)
  /-- `qDebug() << "Item" << key << "has already been registered"` -/
  | debugAlreadyRegistered (key : Key)
  /-- `qCritical() << "Failed to load object:" << key << errorStr` -/
  | criticalFailedToLoad (key : Key) (errorStr : String)
  deriving DecidableEq, Repr

/-- The heap: items, shared maps and factories by address, the next free
address for `new HashType`, and the events so far. -/
structure World where
  items : ItemRef → ctkAbstractFactoryItem
  maps : MapRef → HashType
  factories : FacRef → ctkAbstractFactory
  nextMap : MapRef
  events : List Event

/-- Appends one event. -/
def World.emit (w : World) (e : Event) : World :=
  { w with events := w.events ++ [e] }

/-! ## Qt strings and message handlers

A `String` stands for a `QString` and each of its characters for one `QChar`.
`QString::arg` belongs to Qt; it is embedded after its implementation there
(`findArgEscapes` and `replaceArgEscapes`), with `QChar::digitValue` taken as a
parameter. -/

/-- The values of `QtMsgType` that `displayRegistrationStatus` names. -/
inductive QtMsgType
  | QtDebugMsg
  | QtWarningMsg
  | QtCriticalMsg
  | QtFatalMsg
  deriving DecidableEq, Repr

/-- The message handlers of Qt that `displayRegistrationStatus` calls. -/
inductive Sink
  | qFatal
  | qCritical
  | qWarning
  | qDebug
  deriving DecidableEq, Repr

/-- A piece of a format string: a plain character, or a place marker `%n` or
`%Ln` with its number and its own characters. -/
inductive Piece
  | lit (c : Char)
  | marker (n : Nat) (raw : List Char)
  deriving DecidableEq, Repr

/-- The digits of a place marker at the head of `ds`, as `QString::arg` reads
them: one digit and a second one if it follows. The result is the number of the
marker and the count of its characters after the `%`, `loc` of them read
before the digits. `digitValue` is `QChar::digitValue`, with `none` for -1. -/
def QString.markerDigits (digitValue : Char → Option Nat) (loc : Nat) :
    List Char → Option (Nat × Nat)
  | [] => none
  | d₁ :: rest =>
    match digitValue d₁ with
    | none => none
    | some n₁ =>
      match rest with
      | [] => some (n₁, loc + 1)
      | d₂ :: _ =>
        match digitValue d₂ with
        | none => some (n₁, loc + 1)
        | some n₂ => some (10 * n₁ + n₂, loc + 2)

/-- The place marker that follows a `%`, if any: an optional `L` and the
digits. -/
def QString.markerAt (digitValue : Char → Option Nat) : List Char → Option (Nat × Nat)
  | [] => none
  | c :: ds =>
    if c = 'L' then QString.markerDigits digitValue 1 ds
    else QString.markerDigits digitValue 0 (c :: ds)

/-- The pieces of a format string, read from the left as `QString::arg` does;
`skip` characters are still part of the place marker read last. -/
def QString.scan (digitValue : Char → Option Nat) : Nat → List Char → List Piece
  | _, [] => []
  | skip + 1, _ :: cs => QString.scan digitValue skip cs
  | 0, c :: cs =>
    if c = '%' then
      match QString.markerAt digitValue cs with
      | some (n, len) => Piece.marker n (c :: cs.take len) :: QString.scan digitValue len cs
      | none => Piece.lit c :: QString.scan digitValue 0 cs
    else Piece.lit c :: QString.scan digitValue 0 cs

/-- The lowest number among the place markers, if there is a marker. -/
def QString.minEscape : List Piece → Option Nat
  | [] => none
  | Piece.lit _ :: ps => QString.minEscape ps
  | Piece.marker n _ :: ps =>
    match QString.minEscape ps with
    | none => some n
    | some m => some (min n m)

/-- The argument in its field: filled on the left for a positive width and on
the right for a negative one, up to the absolute value of the width. -/
def QString.padded (a : List Char) (fieldWidth : Int) (fillChar : Char) : List Char :=
  if fieldWidth > 0 then
    List.replicate (max fieldWidth.natAbs a.length - a.length) fillChar ++ a
  else if fieldWidth < 0 then
    a ++ List.replicate (max fieldWidth.natAbs a.length - a.length) fillChar
  else a

/-- The pieces put together again, the place markers numbered `n` replaced by
`a`. -/
def QString.replaceEscapes (n : Nat) (a : List Char) : List Piece → List Char
  | [] => []
  | Piece.lit c :: ps => c :: QString.replaceEscapes n a ps
  | Piece.marker k raw :: ps =>
    (if k = n then a else raw) ++ QString.replaceEscapes n a ps

/-- `QString::arg(a, fieldWidth, fillChar)`: every occurrence of the place
marker with the lowest number is replaced by the argument in its field; a
string without place marker is returned as it is. -/
def QString.arg (digitValue : Char → Option Nat) (s : String) (a : String)
    (fieldWidth : Int) (fillChar : Char) : String :=
  match QString.minEscape (QString.scan digitValue 0 s.toList) with
  | none => s
  | some n =>
    String.mk (QString.replaceEscapes n (QString.padded a.toList fieldWidth fillChar)
      (QString.scan digitValue 0 s.toList))

/-! ## ctkAbstractFactoryItem methods -/

/-- The virtual call `this->load()`: runs the item's own `load` on the state
of its subclass. -/
def virtualLoad (w : World) (self : ItemRef) : Bool × World :=
  let r := (w.items self).load (w.items self).derived
  (r.1,
   { w with
     items := Function.update w.items self { w.items self with derived := r.2 },
     events := w.events ++ [Event.load self r.1] })

/-- The virtual call `this->loadErrorString()`. -/
def virtualLoadErrorString (w : World) (self : ItemRef) : String :=
  (w.items self).loadErrorString (w.items self).derived

/-- The virtual call `this->instanciator()`: runs the item's own `instanciator`
on the state of its subclass. -/
def virtualInstanciator (w : World) (self : ItemRef) : Option Obj × World :=
  let r := (w.items self).instanciator (w.items self).derived
  (r.1,
   { w with
     items := Function.update w.items self { w.items self with derived := r.2 },
     events := w.events ++ [Event.instanciator self r.1] })

/-- `ctkAbstractFactoryItem::ctkAbstractFactoryItem()`: an item at `self` with
no instance and `Verbose = false`; the state and the virtual members are those
of the concrete subclass under construction. -/
def ctkAbstractFactoryItem.ctkAbstractFactoryItem (w : World) (self : ItemRef)
    (derived : Nat) (load : Nat → Bool × Nat) (loadErrorString : Nat → String)
    (instanciator : Nat → Option Obj × Nat) : World :=
  { w with
    items := Function.update w.items self
      { Instance := none,
        Verbose := false,
        derived := derived,
        load := load,
        loadErrorString := loadErrorString,
        instanciator := instanciator } }

/-- `ctkAbstractFactoryItem::instantiate()` -/
def ctkAbstractFactoryItem.instantiate (w : World) (self : ItemRef) :
    Option Obj × World :=
  match (w.items self).Instance with
  | some o => (some o, w)
  | none =>
    let r := virtualInstanciator w self
    (r.1,
     { r.2 with
       items := Function.update r.2.items self { r.2.items self with Instance := r.1 } })

/-- `ctkAbstractFactoryItem::instantiated()` -/
def ctkAbstractFactoryItem.instantiated (w : World) (self : ItemRef) : Bool :=
  (w.items self).Instance != none

/-- `ctkAbstractFactoryItem::uninstantiate()` -/
def ctkAbstractFactoryItem.uninstantiate (w : World) (self : ItemRef) : World :=
  match (w.items self).Instance with
  | none => w
  | some o =>
    { w with
      items := Function.update w.items self { w.items self with Instance := none },
      events := w.events ++ [Event.destroy self o] }

/-- `ctkAbstractFactoryItem::setVerbose(value)` -/
def ctkAbstractFactoryItem.setVerbose (w : World) (self : ItemRef) (value : Bool) :
    World :=
  { w with items := Function.update w.items self { w.items self with Verbose := value } }

/-- `ctkAbstractFactoryItem::verbose()` -/
def ctkAbstractFactoryItem.verbose (w : World) (self : ItemRef) : Bool :=
  (w.items self).Verbose

/-! ## ctkAbstractFactory methods -/

/-- `ctkAbstractFactory::ctkAbstractFactory()`: `Verbose = false` and a shared
map of its own, newly allocated and empty. -/
def ctkAbstractFactory.ctkAbstractFactory (w : World) (self : FacRef) : World :=
  { w with
    factories := Function.update w.factories self
      { RegisteredItemMap := [],
        SharedRegisteredItemMap := some w.nextMap,
        Verbose := false },
    maps := Function.update w.maps w.nextMap [],
    nextMap := w.nextMap + 1 }

/-- `ctkAbstractFactory::item(itemKey)` -/
def ctkAbstractFactory.item (w : World) (self : FacRef) (itemKey : Key) :
    Option ItemRef :=
  match QHash.find (w.factories self).RegisteredItemMap itemKey with
  | none => none
  | some v => v

/-- `ctkAbstractFactory::sharedItem(itemKey)` -/
def ctkAbstractFactory.sharedItem (w : World) (self : FacRef) (itemKey : Key) :
    Option ItemRef :=
  match (w.factories self).SharedRegisteredItemMap with
  | none => none
  | some m =>
    match QHash.find (w.maps m) itemKey with
    | none => none
    | some v => v

/-- `ctkAbstractFactory::instantiate(itemKey)` -/
def ctkAbstractFactory.instantiate (w : World) (self : FacRef) (itemKey : Key) :
    Option Obj × World :=
  match ctkAbstractFactory.item w self itemKey with
  | some _item => ctkAbstractFactoryItem.instantiate w _item
  | none => (none, w)

/-- `ctkAbstractFactory::uninstantiate(itemKey)` -/
def ctkAbstractFactory.uninstantiate (w : World) (self : FacRef) (itemKey : Key) :
    World :=
  match ctkAbstractFactory.item w self itemKey with
  | none => w
  | some _item => ctkAbstractFactoryItem.uninstantiate w _item

/-- `ctkAbstractFactory::setSharedItems(items)` -/
def ctkAbstractFactory.setSharedItems (w : World) (self : FacRef)
    (items : Option MapRef) : World :=
  { w with
    factories := Function.update w.factories self
      { w.factories self with SharedRegisteredItemMap := items } }

/-- `ctkAbstractFactory::sharedItems()` -/
def ctkAbstractFactory.sharedItems (w : World) (self : FacRef) : Option MapRef :=
  (w.factories self).SharedRegisteredItemMap

/-- `ctkAbstractFactory::itemKeys()` -/
def ctkAbstractFactory.itemKeys (hashOrder : List Key → List Key) (w : World)
    (self : FacRef) : List Key :=
  QHash.keys hashOrder (w.factories self).RegisteredItemMap

/-- `ctkAbstractFactory::displayRegistrationStatus(type, description, status,
display)`: the messages handed to the message handlers of Qt, each as the
`QString` that `qPrintable` then converts. `qFatal` ends the process once it
has written its message. -/
def ctkAbstractFactory.displayRegistrationStatus (digitValue : Char → Option Nat)
    (type : QtMsgType) (description status : String) (display : Bool) :
    List (Sink × String) :=
  let msg :=
    QString.arg digitValue
      (QString.arg digitValue "%1 [%2]" (description ++ " ") (-70) '.') status 0 ' '
  if display then
    match type with
    | QtMsgType.QtFatalMsg => [(Sink.qFatal, msg)]
    | QtMsgType.QtCriticalMsg => [(Sink.qCritical, msg)]
    | QtMsgType.QtWarningMsg => [(Sink.qWarning, msg)]
    | QtMsgType.QtDebugMsg => [(Sink.qDebug, msg)]
  else []

/-- `ctkAbstractFactory::setVerbose(value)` -/
def ctkAbstractFactory.setVerbose (w : World) (self : FacRef) (value : Bool) :
    World :=
  { w with
    factories := Function.update w.factories self
      { w.factories self with Verbose := value } }

/-- `ctkAbstractFactory::verbose()` -/
def ctkAbstractFactory.verbose (w : World) (self : FacRef) : Bool :=
  (w.factories self).Verbose

/-- `ctkAbstractFactory::registerItem(key, _item)`. The result is `none` when
the call dereferences the null `SharedRegisteredItemMap` (line 232), which has
no defined behaviour. -/
def ctkAbstractFactory.registerItem (w : World) (self : FacRef) (key : Key)
    (_item : Option ItemRef) : Option (Bool × World) :=
  -- Sanity checks
  if _item.isNone || key.isEmpty || (ctkAbstractFactory.item w self key).isSome then
    some (false,
      if ctkAbstractFactory.verbose w self then
        w.emit (Event.debugKeyEmptyOrExists key _item)
      else w)
  else if (ctkAbstractFactory.sharedItem w self key).isSome then
    some (false,
      if ctkAbstractFactory.verbose w self then
        w.emit (Event.debugAlreadyRegistered key)
      else w)
  else
    match _item with
    | none => none -- `_item->load()` on a null pointer; the sanity checks return first
    | some p =>
      -- Attempt to load it
      let r := virtualLoad w p
      if !r.1 then
        let errorStr :=
          if !(virtualLoadErrorString r.2 p).isEmpty then
            " - " ++ virtualLoadErrorString r.2 p
          else ""
        some (false,
          if ctkAbstractFactory.verbose r.2 self then
            r.2.emit (Event.criticalFailedToLoad key errorStr)
          else r.2)
      else
        -- Store item reference using a QSharedPointer
        let w2 : World :=
          { r.2 with
            factories := Function.update r.2.factories self
              { r.2.factories self with
                RegisteredItemMap :=
                  QHash.insert (r.2.factories self).RegisteredItemMap key (some p) } }
        match (w2.factories self).SharedRegisteredItemMap with
        | none => none
        | some m =>
          some (true,
            { w2 with
              maps := Function.update w2.maps m (QHash.insert (w2.maps m) key (some p)) })

open ctkAbstractFactory

/-! ## Sequences of public operations -/

/-- A call of a public operation on the factory at `f`. -/
inductive Op
  | registerItem (f : FacRef) (key : Key) (item : Option ItemRef)
  | instantiate (f : FacRef) (key : Key)
  | uninstantiate (f : FacRef) (key : Key)
  | setSharedItems (f : FacRef) (items : Option MapRef)
  | setVerbose (f : FacRef) (value : Bool)
  deriving DecidableEq, Repr

/-- The world after one call; `none` when the call has no defined behaviour. -/
def step (w : World) : Op → Option World
  | Op.registerItem f key item =>
    (ctkAbstractFactory.registerItem w f key item).map Prod.snd
  | Op.instantiate f key => some (ctkAbstractFactory.instantiate w f key).2
  | Op.uninstantiate f key => some (ctkAbstractFactory.uninstantiate w f key)
  | Op.setSharedItems f items => some (ctkAbstractFactory.setSharedItems w f items)
  | Op.setVerbose f value => some (ctkAbstractFactory.setVerbose w f value)

/-- The world after a sequence of calls. -/
def run (w : World) : List Op → Option World
  | [] => some w
  | op :: ops =>
    match step w op with
    | none => none
    | some w' => run w' ops

/-- The key registered by the call `op` started in `w`, when `op` is a call of
`registerItem` on the factory at `f` that returns true. -/
def registeredBy (f : FacRef) (w : World) : Op → List Key
  | Op.registerItem g key item =>
    if g = f ∧ (ctkAbstractFactory.registerItem w g key item).map Prod.fst = some true
    then [key] else []
  | _ => []

/-- The keys for which `registerItem` returned true on the factory at `f`
during the calls `ops` started in `w`, in the order of the calls. -/
def registeredKeys (f : FacRef) (w : World) : List Op → List Key
  | [] => []
  | op :: ops =>
    match step w op with
    | none => []
    | some w' => registeredBy f w op ++ registeredKeys f w' ops

/-- A call of a public operation on an item. -/
inductive ItemOp
  | instantiate
  | uninstantiate
  | setVerbose (value : Bool)
  deriving DecidableEq, Repr

/-- The heap after one call on the item at `r`. -/
def itemStep (w : World) (r : ItemRef) : ItemOp → World
  | ItemOp.instantiate => (ctkAbstractFactoryItem.instantiate w r).2
  | ItemOp.uninstantiate => ctkAbstractFactoryItem.uninstantiate w r
  | ItemOp.setVerbose value => ctkAbstractFactoryItem.setVerbose w r value

/-- The heap after a sequence of calls on the item at `r`. -/
def itemRun (w : World) (r : ItemRef) : List ItemOp → World
  | [] => w
  | op :: ops => itemRun (itemStep w r op) r ops

/-! ## Notions used in the statements -/

/-- The world after a call of `registerItem` that returns. -/
def afterRegister (w : World) (f : FacRef) (key : Key) (h : Option ItemRef) : World :=
  match registerItem w f key h with
  | some r => r.2
  | none => w

/-- The world after a sequence of calls that all return. -/
def afterRun (w : World) (ops : List Op) : World :=
  match run w ops with
  | some w' => w'
  | none => w

/-- No null item is stored in the map. -/
def QHash.NoNull (m : HashType) : Prop := ∀ e ∈ m, e.2 ≠ none

/-- The call replaces the shared map of the factory at `f`. -/
def Op.setsSharedOf (f : FacRef) : Op → Bool
  | Op.setSharedItems g _ => decide (g = f)
  | _ => false

/-- The operation is a call of `setSharedItems`. -/
def Op.isSetSharedItems : Op → Bool
  | Op.setSharedItems _ _ => true
  | _ => false

/-- The factory on which the operation is called. -/
def Op.target : Op → FacRef
  | Op.registerItem f _ _ => f
  | Op.instantiate f _ => f
  | Op.uninstantiate f _ => f
  | Op.setSharedItems f _ => f
  | Op.setVerbose f _ => f

/-- The factory at `f` holds the shared map `m`, stores no null item in its
local map, and every entry of its local map is an entry of `m`. -/
def LocalInShared (w : World) (f : FacRef) (m : MapRef) : Prop :=
  (w.factories f).SharedRegisteredItemMap = some m ∧
  QHash.NoNull (w.factories f).RegisteredItemMap ∧
  ∀ k h, QHash.find (w.factories f).RegisteredItemMap k = some h →
    QHash.find (w.maps m) k = some h

/-- The factories at `A` and `B` hold distinct shared maps, each with the same
content as the local map of its factory. -/
def PrivateMaps (w : World) (A B : FacRef) (mA mB : MapRef) : Prop :=
  (w.factories A).SharedRegisteredItemMap = some mA ∧
  (w.factories B).SharedRegisteredItemMap = some mB ∧ mA ≠ mB ∧
  w.maps mA = (w.factories A).RegisteredItemMap ∧
  w.maps mB = (w.factories B).RegisteredItemMap

/-- Every shared map held by a factory has been allocated: its address is
below the next address that `new HashType` hands out. -/
def World.Allocated (w : World) : Prop :=
  ∀ g m, (w.factories g).SharedRegisteredItemMap = some m → m < w.nextMap

/-- The event is a diagnostic message, not a call of a virtual member or the
destruction of an instance. -/
def Event.isDiagnostic : Event → Bool
  | Event.debugKeyEmptyOrExists _ _ => true
  | Event.debugAlreadyRegistered _ => true
  | Event.criticalFailedToLoad _ _ => true
  | _ => false

/-- The two heaps differ at most in the verbose flags of the factories and in
the diagnostics emitted so far. -/
def VerboseEquiv (w₁ w₂ : World) : Prop :=
  w₁.items = w₂.items ∧ w₁.maps = w₂.maps ∧ w₁.nextMap = w₂.nextMap ∧
  (∀ g, (w₁.factories g).RegisteredItemMap = (w₂.factories g).RegisteredItemMap ∧
    (w₁.factories g).SharedRegisteredItemMap = (w₂.factories g).SharedRegisteredItemMap) ∧
  w₁.events.filter (fun e => !e.isDiagnostic) = w₂.events.filter (fun e => !e.isDiagnostic)

/-- Whether `instantiate()` has been called and not undone since by
`uninstantiate()`, `called` telling whether this was so before the calls. -/
def ItemOp.pending (called : Bool) : List ItemOp → Bool
  | [] => called
  | ItemOp.instantiate :: ops => ItemOp.pending true ops
  | ItemOp.uninstantiate :: ops => ItemOp.pending false ops
  | ItemOp.setVerbose _ :: ops => ItemOp.pending called ops

/-- The handler that `displayRegistrationStatus` calls for a message type. -/
def QtMsgType.sink : QtMsgType → Sink
  | QtMsgType.QtFatalMsg => Sink.qFatal
  | QtMsgType.QtCriticalMsg => Sink.qCritical
  | QtMsgType.QtWarningMsg => Sink.qWarning
  | QtMsgType.QtDebugMsg => Sink.qDebug

/-- The message for a description without place marker: the description and a
space, filled on the right with `.` up to 70 characters, then a space and the
status in brackets. -/
def statusMessage (description status : String) : String :=
  String.mk (description.toList ++ ' ' :: List.replicate (69 - description.length) '.' ++
    ' ' :: '[' :: status.toList ++ [']'])

/-- The message as the specification words it: the description with the filler
on its left up to 70 characters, then a space and the status in brackets. -/
def specStatusMessage (description status : String) : String :=
  String.mk (List.replicate (70 - description.length) '.' ++ description.toList ++
    ' ' :: '[' :: status.toList ++ [']'])

/-! ## Concrete items and worlds used in examples -/

/-- An item that holds no instance; `load` returns `ok`, and the `n`-th call
of `instanciator` returns `make n`. -/
def mkItem (ok : Bool) (make : Nat → Option Obj) : ctkAbstractFactoryItem :=
  { Instance := none,
    Verbose := false,
    derived := 0,
    load := fun d => (ok, d),
    -- the implementation of the base class, which returns `QString()`
    loadErrorString := fun _ => "",
    instanciator := fun d => (make d, d + 1) }

/-- A heap without events and without any constructed factory. Item 0 fails to
load and every other item loads. The `n`-th call of the instanciator of item
`i` returns the object `100 * i + n`, except that the first call on item 3 and
every call on item 4 return the null pointer. -/
def world0 : World :=
  { items := fun i =>
      mkItem (i != 0)
        (fun n => if (i = 3 ∧ n = 0) ∨ i = 4 then none else some (100 * i + n)),
    maps := fun _ => [],
    factories := fun _ =>
      { RegisteredItemMap := [], SharedRegisteredItemMap := none, Verbose := false },
    nextMap := 0,
    events := [] }

/-- The heap `world0` after the factory at address 0 has been constructed. -/
def worldA : World := ctkAbstractFactory.ctkAbstractFactory world0 0

/-- The heap `worldA` after item 1 has been registered under "a". -/
def worldA1 : World := afterRegister worldA 0 "a" (some 1)

/-- Calls that follow the registration of "a" in the examples. -/
def opsAfterA : List Op :=
  [Op.setSharedItems 0 none, Op.instantiate 0 "a", Op.registerItem 0 "" (some 2)]

/-- The heap `worldA` after a second factory has been constructed at address 1;
each of the two factories has a shared map of its own. -/
def worldB : World := ctkAbstractFactory.ctkAbstractFactory worldA 1

/-- The heap `worldB` after factory 1 has been given the shared map of
factory 0. -/
def worldAB : World := setSharedItems worldB 1 (sharedItems worldB 0)

/-- The heap `worldA1` after "a" has been instantiated: item 1 holds the object
100. -/
def worldA1i : World := (instantiate worldA1 0 "a").2

/-- Two registrations on factory 0, "b" first and "a" second. -/
def opsBA : List Op :=
  [Op.registerItem 0 "b" (some 2), Op.registerItem 0 "a" (some 1)]

/-- Factory 0 registers "a" and is then given the shared map of factory 1. -/
def opsShare : List Op :=
  [Op.registerItem 0 "a" (some 1), Op.setSharedItems 0 (some 1)]

/-- The heap `world0` after a factory has been constructed at address 1; it
holds the shared map 0. -/
def worldC : World := ctkAbstractFactory.ctkAbstractFactory world0 1

/-- Calls on the factories 0 and 1 that leave the shared map of factory 0 in
place: factory 1 is given the map 1 held by factory 0, both register a key,
factory 1 is refused the key of factory 0, and "a" is instantiated. -/
def opsKeep : List Op :=
  [Op.setSharedItems 1 (some 1), Op.registerItem 0 "a" (some 1),
   Op.registerItem 1 "b" (some 2), Op.registerItem 1 "a" (some 2),
   Op.instantiate 0 "a", Op.setVerbose 0 true]

/-- Calls that follow the registration of "a" by factory 0 in `worldAB`:
factory 1 registers "b", is refused "a" and is given a map of its own. -/
def opsAfterB : List Op :=
  [Op.registerItem 1 "b" (some 2), Op.registerItem 1 "a" (some 2),
   Op.setSharedItems 1 (some 1), Op.instantiate 0 "a"]

/-- The heap `worldA1i` after item 2 has been registered under "b": "a" is
instantiated and "b" is not. -/
def worldA1b : World := afterRegister worldA1i 0 "b" (some 2)

/-- Calls on factory 0 that replace its shared map by the present map 7. -/
def opsPresent : List Op :=
  [Op.registerItem 0 "a" (some 1), Op.setSharedItems 0 (some 7),
   Op.registerItem 0 "b" (some 2), Op.instantiate 0 "a"]

/-- The heap `world0` after an item has been constructed at address 9 whose
`load` succeeds and whose instanciator returns the null pointer. -/
def worldNull : World :=
  ctkAbstractFactoryItem.ctkAbstractFactoryItem world0 9 0 (fun d => (true, d))
    (fun _ => "") (fun d => (none, d))

/-- `QChar::digitValue` on the ASCII digits; used in the examples. -/
def asciiDigitValue (c : Char) : Option Nat :=
  if '0'.toNat ≤ c.toNat ∧ c.toNat ≤ '9'.toNat then some (c.toNat - '0'.toNat) else none

/-! ## Lemmas on the hash table -/

theorem QHash.find_insert_self (m : HashType) (k : Key) (v : Option ItemRef) :
    QHash.find (QHash.insert m k v) k = some v := by
  induction m with
  | nil => simp [QHash.insert, QHash.find]
  | cons e m ih =>
    obtain ⟨k', v'⟩ := e
    by_cases h : k' = k
    · simp [QHash.insert, QHash.find, h]
    · simp [QHash.insert, QHash.find, h, ih]

theorem QHash.find_insert_ne (m : HashType) (k k' : Key) (v : Option ItemRef)
    (hne : k' ≠ k) : QHash.find (QHash.insert m k v) k' = QHash.find m k' := by
  induction m with
  | nil => simp [QHash.insert, QHash.find, hne.symm]
  | cons e m ih =>
    obtain ⟨k₁, v₁⟩ := e
    by_cases h : k₁ = k
    · subst h
      simp [QHash.insert, QHash.find, hne.symm]
    · by_cases h' : k₁ = k'
      · subst h'
        simp [QHash.insert, QHash.find, h]
      · simp [QHash.insert, QHash.find, h, h', ih]

/-! ## The paths of `registerItem` -/

theorem World.ite_emit_frame (w : World) (c : Bool) (e : Event) :
    (if c = true then w.emit e else w).items = w.items ∧
    (if c = true then w.emit e else w).maps = w.maps ∧
    (if c = true then w.emit e else w).factories = w.factories ∧
    (if c = true then w.emit e else w).nextMap = w.nextMap := by
  cases c <;> simp [World.emit]

/-- The guard of the sanity checks, as a proposition. -/
theorem sanity_iff (w : World) (f : FacRef) (key : Key) (h : Option ItemRef) :
    (h.isNone || key.isEmpty || (item w f key).isSome) = true ↔
      (h = none ∨ key = "" ∨ item w f key ≠ none) := by
  simp only [Bool.or_eq_true, Option.isNone_iff_eq_none, String.isEmpty_iff,
    Option.isSome_iff_ne_none, or_assoc]

/-- Lines 196-204: a null item, an empty key or a key of the local map. -/
theorem registerItem_sanity (w : World) (f : FacRef) (key : Key) (h : Option ItemRef)
    (hc : h = none ∨ key = "" ∨ item w f key ≠ none) :
    registerItem w f key h = some (false,
      if verbose w f = true then w.emit (Event.debugKeyEmptyOrExists key h) else w) := by
  have hc' := (sanity_iff w f key h).mpr hc
  simp only [registerItem, hc', if_true]

/-- Lines 206-213: a key of the shared map. -/
theorem registerItem_shared (w : World) (f : FacRef) (key : Key) (h : Option ItemRef)
    (hc : ¬ (h = none ∨ key = "" ∨ item w f key ≠ none))
    (hs : sharedItem w f key ≠ none) :
    registerItem w f key h = some (false,
      if verbose w f = true then w.emit (Event.debugAlreadyRegistered key) else w) := by
  have hc' := (not_congr (sanity_iff w f key h)).mpr hc
  have hs' : (sharedItem w f key).isSome = true := Option.isSome_iff_ne_none.mpr hs
  simp only [registerItem, hc', hs', if_true, if_false]
  simp

/-- Lines 216-228: `load` fails. -/
theorem registerItem_load_false (w : World) (f : FacRef) (key : Key) (p : ItemRef)
    (hk : key ≠ "") (hi : item w f key = none) (hs : sharedItem w f key = none)
    (hl : (virtualLoad w p).1 = false) :
    registerItem w f key (some p) = some (false,
      if verbose w f = true then
        (virtualLoad w p).2.emit (Event.criticalFailedToLoad key
          (if (!(virtualLoadErrorString (virtualLoad w p).2 p).isEmpty) = true then
            " - " ++ virtualLoadErrorString (virtualLoad w p).2 p
          else ""))
      else (virtualLoad w p).2) := by
  have hc : ¬ ((some p : Option ItemRef).isNone || key.isEmpty || (item w f key).isSome) = true := by
    rw [sanity_iff]; simp [hk, hi]
  have hs' : ¬ (sharedItem w f key).isSome = true := by simp [hs]
  simp only [registerItem, hc, hs', if_false, hl]
  rfl

/-- Lines 231-234: the item is stored in both maps. -/
theorem registerItem_store (w : World) (f : FacRef) (key : Key) (p : ItemRef)
    (hk : key ≠ "") (hi : item w f key = none) (hs : sharedItem w f key = none)
    (hl : (virtualLoad w p).1 = true) (m : MapRef)
    (hm : (w.factories f).SharedRegisteredItemMap = some m) :
    registerItem w f key (some p) = some (true,
      { (virtualLoad w p).2 with
        factories := Function.update w.factories f
          { w.factories f with
            RegisteredItemMap := QHash.insert (w.factories f).RegisteredItemMap key (some p) },
        maps := Function.update w.maps m (QHash.insert (w.maps m) key (some p)) }) := by
  have hc : ¬ ((some p : Option ItemRef).isNone || key.isEmpty || (item w f key).isSome) = true := by
    rw [sanity_iff]; simp [hk, hi]
  have hs' : ¬ (sharedItem w f key).isSome = true := by simp [hs]
  simp only [registerItem, hc, hs', if_false, hl]
  simp [virtualLoad, hm]

/-- Line 232 with a null shared map. -/
theorem registerItem_null (w : World) (f : FacRef) (key : Key) (p : ItemRef)
    (hk : key ≠ "") (hi : item w f key = none)
    (hl : (virtualLoad w p).1 = true)
    (hm : (w.factories f).SharedRegisteredItemMap = none) :
    registerItem w f key (some p) = none := by
  have hc : ¬ ((some p : Option ItemRef).isNone || key.isEmpty || (item w f key).isSome) = true := by
    rw [sanity_iff]; simp [hk, hi]
  have hs' : ¬ (sharedItem w f key).isSome = true := by simp [sharedItem, hm]
  simp only [registerItem, hc, hs', if_false, hl]
  simp [virtualLoad, hm]


/-- Every call of `registerItem` either has no defined behaviour, or returns
false and leaves all factories and maps as they are, or returns true after
storing the item under the key in the local map and in the shared map. -/
theorem registerItem_cases (w : World) (f : FacRef) (key : Key) (h : Option ItemRef) :
    registerItem w f key h = none ∨
    (∃ w', registerItem w f key h = some (false, w') ∧
      w'.factories = w.factories ∧ w'.maps = w.maps ∧ w'.nextMap = w.nextMap) ∨
    (∃ p m w', h = some p ∧ key ≠ "" ∧ item w f key = none ∧ sharedItem w f key = none ∧
      (virtualLoad w p).1 = true ∧ (w.factories f).SharedRegisteredItemMap = some m ∧
      registerItem w f key h = some (true, w') ∧
      w'.factories = Function.update w.factories f
        { w.factories f with
          RegisteredItemMap := QHash.insert (w.factories f).RegisteredItemMap key (some p) } ∧
      w'.maps = Function.update w.maps m (QHash.insert (w.maps m) key (some p)) ∧
      w'.nextMap = w.nextMap) := by
  by_cases hc : h = none ∨ key = "" ∨ item w f key ≠ none
  · right; left
    exact ⟨_, registerItem_sanity w f key h hc, (World.ite_emit_frame w _ _).2.2.1,
      (World.ite_emit_frame w _ _).2.1, (World.ite_emit_frame w _ _).2.2.2⟩
  · by_cases hs : sharedItem w f key ≠ none
    · right; left
      exact ⟨_, registerItem_shared w f key h hc hs, (World.ite_emit_frame w _ _).2.2.1,
        (World.ite_emit_frame w _ _).2.1, (World.ite_emit_frame w _ _).2.2.2⟩
    · simp only [not_or, not_not] at hc hs
      obtain ⟨hh, hk, hi⟩ := hc
      obtain ⟨p, rfl⟩ := Option.ne_none_iff_exists'.mp hh
      cases hl : (virtualLoad w p).1
      · right; left
        refine ⟨_, registerItem_load_false w f key p hk hi hs hl, ?_, ?_, ?_⟩
        · rw [(World.ite_emit_frame _ _ _).2.2.1]; rfl
        · rw [(World.ite_emit_frame _ _ _).2.1]; rfl
        · rw [(World.ite_emit_frame _ _ _).2.2.2]; rfl
      · rcases Option.eq_none_or_eq_some (w.factories f).SharedRegisteredItemMap with
          hm | ⟨m, hm⟩
        · left; exact registerItem_null w f key p hk hi hl hm
        · right; right
          exact ⟨p, m, _, rfl, hk, hi, hs, hl, hm,
            registerItem_store w f key p hk hi hs hl m hm, rfl, rfl, rfl⟩

/-- C1: with a shared map present, `registerItem(key, item)` returns (it does not
fail), and it returns true exactly when the item is non-null, the key is
non-empty, `item(key)` and `sharedItem(key)` are both null and `item.load()`
returns true; when it returns true, `item(key)` and `sharedItem(key)` resolve to
that item afterwards and every other entry of both maps is as before. -/
theorem registerItem_true_iff (w : World) (f : FacRef) (key : Key)
    (h : Option ItemRef) (m : MapRef)
    (hm : (w.factories f).SharedRegisteredItemMap = some m) :
    ∃ b w', registerItem w f key h = some (b, w') ∧
      (b = true ↔ ∃ p, h = some p ∧ key ≠ "" ∧ item w f key = none ∧
          sharedItem w f key = none ∧ (virtualLoad w p).1 = true) ∧
      (b = true →
        item w' f key = h ∧ sharedItem w' f key = h ∧
        (w'.factories f).SharedRegisteredItemMap = some m ∧
        ∀ k', k' ≠ key →
          QHash.find (w'.factories f).RegisteredItemMap k' =
            QHash.find (w.factories f).RegisteredItemMap k' ∧
          QHash.find (w'.maps m) k' = QHash.find (w.maps m) k') := by
  by_cases hc : h = none ∨ key = "" ∨ item w f key ≠ none
  · refine ⟨false, _, registerItem_sanity w f key h hc, ?_, by simp⟩
    constructor
    · simp
    · rintro ⟨p, rfl, hk, hi, -, -⟩
      rcases hc with hc | hc | hc
      · simp at hc
      · exact absurd hc hk
      · exact absurd hi hc
  · by_cases hs : sharedItem w f key ≠ none
    · refine ⟨false, _, registerItem_shared w f key h hc hs, ?_, by simp⟩
      constructor
      · simp
      · rintro ⟨p, -, -, -, hs', -⟩
        exact absurd hs' hs
    · simp only [not_or, not_not] at hc hs
      obtain ⟨hh, hk, hi⟩ := hc
      obtain ⟨p, rfl⟩ := Option.ne_none_iff_exists'.mp hh
      cases hl : (virtualLoad w p).1
      · refine ⟨false, _, registerItem_load_false w f key p hk hi hs hl, ?_, by simp⟩
        constructor
        · simp
        · rintro ⟨q, hq, -, -, -, hq'⟩
          cases hq
          rw [hl] at hq'
          exact absurd hq' (by simp)
      · refine ⟨true, _, registerItem_store w f key p hk hi hs hl m hm, ?_, ?_⟩
        · simp only [true_iff]
          exact ⟨p, rfl, hk, hi, hs, hl⟩
        · intro _
          refine ⟨?_, ?_, ?_, ?_⟩
          · simp [item, QHash.find_insert_self]
          · simp [sharedItem, hm, QHash.find_insert_self]
          · simp [hm]
          · intro k' hk'
            simp [QHash.find_insert_ne _ _ _ _ hk']

/-- The registration contract at a newly constructed factory, for the loadable
item 1 and the key "a". -/
theorem registerItem_true_iff_witness :
    (worldA.factories 0).SharedRegisteredItemMap = some 0 ∧
    ∃ b w', registerItem worldA 0 "a" (some 1) =
        some (b, w') ∧
      (b = true ↔ ∃ p, some 1 = some p ∧ "a" ≠ "" ∧
          item worldA 0 "a" = none ∧
          sharedItem worldA 0 "a" = none ∧
          (virtualLoad worldA p).1 = true) ∧
      (b = true →
        item w' 0 "a" = some 1 ∧ sharedItem w' 0 "a" = some 1 ∧
        (w'.factories 0).SharedRegisteredItemMap = some 0 ∧
        ∀ k', k' ≠ "a" →
          QHash.find (w'.factories 0).RegisteredItemMap k' =
            QHash.find (worldA.factories 0).RegisteredItemMap k' ∧
          QHash.find (w'.maps 0) k' =
            QHash.find (worldA.maps 0) k') :=
  ⟨rfl, registerItem_true_iff worldA 0 "a" (some 1) 0 rfl⟩

/-! ## What one call changes -/

theorem item_instantiate_frame (w : World) (r : ItemRef) :
    (ctkAbstractFactoryItem.instantiate w r).2.factories = w.factories ∧
    (ctkAbstractFactoryItem.instantiate w r).2.maps = w.maps ∧
    (ctkAbstractFactoryItem.instantiate w r).2.nextMap = w.nextMap := by
  unfold ctkAbstractFactoryItem.instantiate
  cases (w.items r).Instance <;> simp [virtualInstanciator]

theorem item_uninstantiate_frame (w : World) (r : ItemRef) :
    (ctkAbstractFactoryItem.uninstantiate w r).factories = w.factories ∧
    (ctkAbstractFactoryItem.uninstantiate w r).maps = w.maps ∧
    (ctkAbstractFactoryItem.uninstantiate w r).nextMap = w.nextMap := by
  unfold ctkAbstractFactoryItem.uninstantiate
  cases (w.items r).Instance <;> simp

theorem factory_instantiate_frame (w : World) (f : FacRef) (key : Key) :
    (instantiate w f key).2.factories = w.factories ∧
    (instantiate w f key).2.maps = w.maps ∧
    (instantiate w f key).2.nextMap = w.nextMap := by
  unfold instantiate
  cases item w f key with
  | none => simp
  | some r => exact item_instantiate_frame w r

theorem factory_uninstantiate_frame (w : World) (f : FacRef) (key : Key) :
    (uninstantiate w f key).factories = w.factories ∧
    (uninstantiate w f key).maps = w.maps ∧
    (uninstantiate w f key).nextMap = w.nextMap := by
  unfold uninstantiate
  cases item w f key with
  | none => simp
  | some r => exact item_uninstantiate_frame w r

/-- The local map of a factory changes only when `registerItem` returns true on
that factory, and then by the insertion of a key that was not resolved before. -/
theorem step_local (w w' : World) (op : Op) (hstep : step w op = some w') (f : FacRef) :
    (w'.factories f).RegisteredItemMap = (w.factories f).RegisteredItemMap ∨
    ∃ key p, op = Op.registerItem f key (some p) ∧ key ≠ "" ∧ item w f key = none ∧
      (registerItem w f key (some p)).map Prod.fst = some true ∧
      (w'.factories f).RegisteredItemMap =
        QHash.insert (w.factories f).RegisteredItemMap key (some p) := by
  cases op with
  | registerItem g key h =>
    simp only [step, Option.map_eq_some'] at hstep
    obtain ⟨⟨b, w''⟩, hreg, rfl⟩ := hstep
    rcases registerItem_cases w g key h with hn | ⟨w₁, h₁, hf, -, -⟩ |
      ⟨p, m, w₁, rfl, hk, hi, -, -, -, h₁, hf, -, -⟩
    · rw [hn] at hreg; cases hreg
    · rw [h₁] at hreg; cases hreg
      left; simp [hf]
    · rw [h₁] at hreg; cases hreg
      by_cases hg : g = f
      · subst hg
        right
        exact ⟨key, p, rfl, hk, hi, by simp [h₁], by simp [hf]⟩
      · left
        simp [hf, Function.update_noteq (Ne.symm hg)]
  | instantiate g key =>
    simp only [step, Option.some.injEq] at hstep
    subst hstep
    left; rw [(factory_instantiate_frame w g key).1]
  | uninstantiate g key =>
    simp only [step, Option.some.injEq] at hstep
    subst hstep
    left; rw [(factory_uninstantiate_frame w g key).1]
  | setSharedItems g items =>
    simp only [step, Option.some.injEq] at hstep
    subst hstep
    left
    by_cases hg : g = f
    · subst hg; simp [setSharedItems]
    · simp [setSharedItems, Function.update_noteq (Ne.symm hg)]
  | setVerbose g value =>
    simp only [step, Option.some.injEq] at hstep
    subst hstep
    left
    by_cases hg : g = f
    · subst hg; simp [setVerbose]
    · simp [setVerbose, Function.update_noteq (Ne.symm hg)]

/-- An entry of the local map with a non-null item survives every call. -/
theorem step_item (w w' : World) (op : Op) (hstep : step w op = some w') (f : FacRef)
    (k : Key) (x : ItemRef) (hx : item w f k = some x) : item w' f k = some x := by
  rcases step_local w w' op hstep f with h | ⟨key, p, -, -, hi, -, h⟩
  · simpa [item, h] using hx
  · have hne : k ≠ key := by
      rintro rfl
      rw [hi] at hx; cases hx
    simpa [item, h, QHash.find_insert_ne _ _ _ _ hne] using hx

theorem run_item (ops : List Op) (w w' : World) (hrun : run w ops = some w') (f : FacRef)
    (k : Key) (x : ItemRef) (hx : item w f k = some x) : item w' f k = some x := by
  induction ops generalizing w with
  | nil =>
    simp only [run, Option.some.injEq] at hrun
    subst hrun; exact hx
  | cons op ops ih =>
    simp only [run] at hrun
    cases hs : step w op with
    | none => simp [hs] at hrun
    | some w₁ =>
      simp only [hs] at hrun
      exact ih w₁ hrun (step_item w w₁ op hs f k x hx)

/-- C2 (P1, uniqueness): once `registerItem(k, x)` has returned true on a
factory, every later `registerItem(k, y)` on that factory, after any sequence
of public operations on any factories, returns false and leaves every local
map, every shared map and every item as it was. -/
theorem registerItem_unique (w w₁ w₂ : World) (f : FacRef) (k : Key)
    (x : Option ItemRef) (hreg : registerItem w f k x = some (true, w₁))
    (ops : List Op) (hrun : run w₁ ops = some w₂) (y : Option ItemRef) :
    ∃ w₃, registerItem w₂ f k y = some (false, w₃) ∧
      w₃.factories = w₂.factories ∧ w₃.maps = w₂.maps ∧ w₃.items = w₂.items := by
  rcases registerItem_cases w f k x with hn | ⟨w', h', -⟩ |
    ⟨p, m, w', rfl, hk, hi, -, -, -, h₁, hf, -, -⟩
  · rw [hn] at hreg; cases hreg
  · rw [h'] at hreg; cases hreg
  · rw [h₁] at hreg; cases hreg
    have hx : item w₁ f k = some p := by
      simp [item, hf, QHash.find_insert_self]
    have hx₂ := run_item ops w₁ w₂ hrun f k p hx
    have hc : y = none ∨ k = "" ∨ item w₂ f k ≠ none := by
      right; right; rw [hx₂]; simp
    exact ⟨_, registerItem_sanity w₂ f k y hc, (World.ite_emit_frame w₂ _ _).2.2.1,
      (World.ite_emit_frame w₂ _ _).2.1, (World.ite_emit_frame w₂ _ _).1⟩

/-- Uniqueness at work: "a" is registered on factory 0, the shared map is
replaced by a null one, "a" is instantiated and an empty key is refused; a
second registration of "a" is then refused. -/
theorem registerItem_unique_witness :
    registerItem worldA 0 "a" (some 1) = some (true, worldA1) ∧
    run worldA1 opsAfterA = some (afterRun worldA1 opsAfterA) ∧
    ∃ w₃, registerItem (afterRun worldA1 opsAfterA) 0 "a" (some 2) = some (false, w₃) ∧
      w₃.factories = (afterRun worldA1 opsAfterA).factories ∧
      w₃.maps = (afterRun worldA1 opsAfterA).maps ∧
      w₃.items = (afterRun worldA1 opsAfterA).items :=
  ⟨rfl, rfl,
    registerItem_unique worldA worldA1 (afterRun worldA1 opsAfterA) 0 "a" (some 1) rfl
      opsAfterA rfl (some 2)⟩

/-! ## The load gate -/

/-- C3, as stated, fails on a key that is already registered: item 0 is
non-null and its `load()` returns false, `registerItem("a", item 0)` returns
false, and "a" still resolves to item 1 in the local map and in the shared
map. -/
theorem load_gate_counterexample :
    (virtualLoad worldA1 0).1 = false ∧
    (registerItem worldA1 0 "a" (some 0)).map Prod.fst = some false ∧
    QHash.find ((afterRegister worldA1 0 "a" (some 0)).factories 0).RegisteredItemMap "a" =
      some (some 1) ∧
    ((afterRegister worldA1 0 "a" (some 0)).factories 0).SharedRegisteredItemMap = some 0 ∧
    QHash.find ((afterRegister worldA1 0 "a" (some 0)).maps 0) "a" = some (some 1) := by
  decide

/-- C3 (P6, load gate), amended: for a non-null item whose `load()` returns
false, `registerItem` returns false and leaves every local map and every shared
map as it was; a key that appeared in neither map of the factory before the
call appears in neither afterwards. -/
theorem registerItem_load_gate (w : World) (f : FacRef) (key : Key) (p : ItemRef)
    (hl : (virtualLoad w p).1 = false) :
    ∃ w', registerItem w f key (some p) = some (false, w') ∧
      w'.factories = w.factories ∧ w'.maps = w.maps ∧
      (QHash.find (w.factories f).RegisteredItemMap key = none →
        QHash.find (w'.factories f).RegisteredItemMap key = none) ∧
      ∀ m, (w.factories f).SharedRegisteredItemMap = some m →
        QHash.find (w.maps m) key = none →
        (w'.factories f).SharedRegisteredItemMap = some m ∧
          QHash.find (w'.maps m) key = none := by
  rcases registerItem_cases w f key (some p) with hn | ⟨w', h', hf, hm, -⟩ |
    ⟨q, m, w', hq, -, -, -, hl', -⟩
  · exfalso
    by_cases hc : (some p : Option ItemRef) = none ∨ key = "" ∨ item w f key ≠ none
    · rw [registerItem_sanity w f key _ hc] at hn; cases hn
    · by_cases hs : sharedItem w f key ≠ none
      · rw [registerItem_shared w f key _ hc hs] at hn; cases hn
      · simp only [not_or, not_not] at hc hs
        rw [registerItem_load_false w f key p hc.2.1 hc.2.2 hs hl] at hn; cases hn
  · refine ⟨w', h', hf, hm, ?_, ?_⟩
    · intro h0; rw [hf]; exact h0
    · intro m hm' h0
      rw [hf, hm]; exact ⟨hm', h0⟩
  · cases hq
    rw [hl] at hl'; cases hl'

/-- The load gate at a newly constructed factory: item 0 does not load and "a" is
in neither map before or after the call. -/
theorem registerItem_load_gate_witness :
    (virtualLoad worldA 0).1 = false ∧
    ∃ w', registerItem worldA 0 "a" (some 0) = some (false, w') ∧
      w'.factories = worldA.factories ∧ w'.maps = worldA.maps ∧
      (QHash.find (worldA.factories 0).RegisteredItemMap "a" = none →
        QHash.find (w'.factories 0).RegisteredItemMap "a" = none) ∧
      ∀ m, (worldA.factories 0).SharedRegisteredItemMap = some m →
        QHash.find (worldA.maps m) "a" = none →
        (w'.factories 0).SharedRegisteredItemMap = some m ∧
          QHash.find (w'.maps m) "a" = none :=
  ⟨rfl, registerItem_load_gate worldA 0 "a" 0 rfl⟩

/-! ## Factories that hold the same shared map -/

/-- After a call of `registerItem` that returned true, every factory that held
the same shared map as the registering one resolves the key in it to the item. -/
theorem sharedItem_after_register (w w₁ : World) (A B : FacRef) (k : Key)
    (x : Option ItemRef) (hreg : registerItem w A k x = some (true, w₁))
    (hAB : (w.factories B).SharedRegisteredItemMap = (w.factories A).SharedRegisteredItemMap) :
    sharedItem w₁ B k = x ∧ x ≠ none ∧
      (w₁.factories B).SharedRegisteredItemMap = (w.factories A).SharedRegisteredItemMap := by
  rcases registerItem_cases w A k x with hn | ⟨w', h', -⟩ |
    ⟨p, m, w', rfl, hk, hi, -, -, hm, h₁, hf, hmaps, -⟩
  · rw [hn] at hreg; cases hreg
  · rw [h'] at hreg; cases hreg
  · rw [h₁] at hreg; cases hreg
    have hB : (w₁.factories B).SharedRegisteredItemMap = some m := by
      rw [hf]
      by_cases hBA : B = A
      · subst hBA; simp [hm]
      · rw [Function.update_noteq hBA, hAB, hm]
    refine ⟨?_, by simp, by rw [hB, hm]⟩
    simp [sharedItem, hB, hmaps, QHash.find_insert_self]

/-- Only `setSharedItems` on a factory changes the shared map it holds. -/
theorem step_sharedPtr (w w' : World) (op : Op) (hstep : step w op = some w') (f : FacRef)
    (hop : Op.setsSharedOf f op = false) :
    (w'.factories f).SharedRegisteredItemMap = (w.factories f).SharedRegisteredItemMap := by
  cases op with
  | registerItem g key x =>
    simp only [step, Option.map_eq_some'] at hstep
    obtain ⟨⟨b, w''⟩, hreg, rfl⟩ := hstep
    rcases registerItem_cases w g key x with hn | ⟨w₁, h₁, hf, -, -⟩ |
      ⟨p, m, w₁, rfl, -, -, -, -, -, h₁, hf, -, -⟩
    · rw [hn] at hreg; cases hreg
    · rw [h₁] at hreg; cases hreg
      simp [hf]
    · rw [h₁] at hreg; cases hreg
      by_cases hg : g = f
      · subst hg; simp [hf]
      · simp [hf, Function.update_noteq (Ne.symm hg)]
  | instantiate g key =>
    simp only [step, Option.some.injEq] at hstep
    subst hstep
    rw [(factory_instantiate_frame w g key).1]
  | uninstantiate g key =>
    simp only [step, Option.some.injEq] at hstep
    subst hstep
    rw [(factory_uninstantiate_frame w g key).1]
  | setSharedItems g items =>
    simp only [step, Option.some.injEq] at hstep
    subst hstep
    have hg : g ≠ f := by simpa [Op.setsSharedOf] using hop
    simp [setSharedItems, Function.update_noteq (Ne.symm hg)]
  | setVerbose g value =>
    simp only [step, Option.some.injEq] at hstep
    subst hstep
    by_cases hg : g = f
    · subst hg; simp [setVerbose]
    · simp [setVerbose, Function.update_noteq (Ne.symm hg)]

theorem run_sharedPtr (ops : List Op) (w w' : World) (hrun : run w ops = some w')
    (f : FacRef) (hops : ∀ op ∈ ops, Op.setsSharedOf f op = false) :
    (w'.factories f).SharedRegisteredItemMap = (w.factories f).SharedRegisteredItemMap := by
  induction ops generalizing w with
  | nil =>
    simp only [run, Option.some.injEq] at hrun
    subst hrun; rfl
  | cons op ops ih =>
    simp only [run] at hrun
    cases hs : step w op with
    | none => simp [hs] at hrun
    | some w₁ =>
      simp only [hs] at hrun
      rw [ih w₁ hrun (fun o ho => hops o (List.mem_cons_of_mem _ ho)),
        step_sharedPtr w w₁ op hs f (hops op (List.mem_cons_self _ _))]

/-- An entry of a shared map with a non-null item survives every call. -/
theorem step_sharedEntry (w w' : World) (op : Op) (hstep : step w op = some w')
    (m : MapRef) (k : Key) (p : ItemRef) (h : QHash.find (w.maps m) k = some (some p)) :
    QHash.find (w'.maps m) k = some (some p) := by
  cases op with
  | registerItem g key x =>
    simp only [step, Option.map_eq_some'] at hstep
    obtain ⟨⟨b, w''⟩, hreg, rfl⟩ := hstep
    rcases registerItem_cases w g key x with hn | ⟨w₁, h₁, -, hm, -⟩ |
      ⟨q, m', w₁, rfl, -, -, hs, -, hm', h₁, -, hmaps, -⟩
    · rw [hn] at hreg; cases hreg
    · rw [h₁] at hreg; cases hreg
      simp only [hm]; exact h
    · rw [h₁] at hreg; cases hreg
      show QHash.find (w''.maps m) k = some (some p)
      by_cases hmm : m = m'
      · subst hmm
        have hkk : k ≠ key := by
          rintro rfl
          simp [sharedItem, hm', h] at hs
        simp only [hmaps, Function.update_same]
        rw [QHash.find_insert_ne _ _ _ _ hkk]; exact h
      · rw [hmaps, Function.update_noteq hmm]; exact h
  | instantiate g key =>
    simp only [step, Option.some.injEq] at hstep
    subst hstep
    rw [(factory_instantiate_frame w g key).2.1]; exact h
  | uninstantiate g key =>
    simp only [step, Option.some.injEq] at hstep
    subst hstep
    rw [(factory_uninstantiate_frame w g key).2.1]; exact h
  | setSharedItems g items =>
    simp only [step, Option.some.injEq] at hstep
    subst hstep; exact h
  | setVerbose g value =>
    simp only [step, Option.some.injEq] at hstep
    subst hstep; exact h

theorem run_sharedEntry (ops : List Op) (w w' : World) (hrun : run w ops = some w')
    (m : MapRef) (k : Key) (p : ItemRef) (h : QHash.find (w.maps m) k = some (some p)) :
    QHash.find (w'.maps m) k = some (some p) := by
  induction ops generalizing w with
  | nil =>
    simp only [run, Option.some.injEq] at hrun
    subst hrun; exact h
  | cons op ops ih =>
    simp only [run] at hrun
    cases hs : step w op with
    | none => simp [hs] at hrun
    | some w₁ =>
      simp only [hs] at hrun
      exact ih w₁ hrun (step_sharedEntry w w₁ op hs m k p h)

/-- After a call of `registerItem` that returned true, the shared map held by
the factory has the item under the key. -/
theorem sharedEntry_after_register (w w₁ : World) (A : FacRef) (k : Key)
    (x : Option ItemRef) (hreg : registerItem w A k x = some (true, w₁)) :
    ∃ m p, x = some p ∧ (w₁.factories A).SharedRegisteredItemMap = some m ∧
      QHash.find (w₁.maps m) k = some (some p) := by
  rcases registerItem_cases w A k x with hn | ⟨w', h', -⟩ |
    ⟨p, m, w', rfl, -, -, -, -, hm, h₁, hf, hmaps, -⟩
  · rw [hn] at hreg; cases hreg
  · rw [h'] at hreg; cases hreg
  · rw [h₁] at hreg; cases hreg
    exact ⟨m, p, rfl, by simp [hf, hm], by simp [hmaps, QHash.find_insert_self]⟩

/-- C4 (cross-factory collision guard): when A and B hold the same shared map
and `A.registerItem(k, x)` has returned true, then, after any calls that do
not replace the shared map of B, `B.registerItem(k, y)` returns false for every
item y, whether or not k is in B's local map; it leaves every local map and
every shared map as it was, and the shared entry for k still resolves to x. -/
theorem registerItem_collision (w w₁ : World) (A B : FacRef) (m : MapRef) (k : Key)
    (x : Option ItemRef)
    (hA : (w.factories A).SharedRegisteredItemMap = some m)
    (hB : (w.factories B).SharedRegisteredItemMap = some m)
    (hreg : registerItem w A k x = some (true, w₁))
    (ops : List Op) (w₂ : World) (hops : ∀ op ∈ ops, Op.setsSharedOf B op = false)
    (hrun : run w₁ ops = some w₂) (y : Option ItemRef) :
    ∃ w₃, registerItem w₂ B k y = some (false, w₃) ∧
      w₃.factories = w₂.factories ∧ w₃.maps = w₂.maps ∧
      sharedItem w₃ B k = x ∧ item w₃ B k = item w₂ B k := by
  obtain ⟨-, -, hB₁⟩ := sharedItem_after_register w w₁ A B k x hreg (by rw [hA, hB])
  obtain ⟨m', p, rfl, hm', hfind⟩ := sharedEntry_after_register w w₁ A k x hreg
  have hmm : m' = m := by
    have := (sharedItem_after_register w w₁ A A k (some p) hreg rfl).2.2
    rw [hm', hA] at this
    exact Option.some.inj this
  subst hmm
  have hB₂ : (w₂.factories B).SharedRegisteredItemMap = some m' := by
    rw [run_sharedPtr ops w₁ w₂ hrun B hops, hB₁, hA]
  have hfind₂ := run_sharedEntry ops w₁ w₂ hrun m' k p hfind
  have hsB : sharedItem w₂ B k = some p := by
    simp [sharedItem, hB₂, hfind₂]
  have hs : sharedItem w₂ B k ≠ none := by rw [hsB]; simp
  have frame : ∀ (c : Bool) (e : Event),
      (if c = true then w₂.emit e else w₂).factories = w₂.factories ∧
      (if c = true then w₂.emit e else w₂).maps = w₂.maps ∧
      sharedItem (if c = true then w₂.emit e else w₂) B k = some p ∧
      item (if c = true then w₂.emit e else w₂) B k = item w₂ B k := by
    intro c e
    cases c
    · exact ⟨rfl, rfl, hsB, rfl⟩
    · exact ⟨rfl, rfl, hsB, rfl⟩
  by_cases hc : y = none ∨ k = "" ∨ item w₂ B k ≠ none
  · exact ⟨_, registerItem_sanity w₂ B k y hc, frame _ _⟩
  · exact ⟨_, registerItem_shared w₂ B k y hc hs, frame _ _⟩

/-- The collision guard at two constructed factories: factory 1 holds the map of
factory 0, factory 0 registers "a", and factory 1, whose local map has no
"a", is refused "a" after it has registered "b". -/
theorem registerItem_collision_witness :
    (worldAB.factories 0).SharedRegisteredItemMap = some 0 ∧
    (worldAB.factories 1).SharedRegisteredItemMap = some 0 ∧
    registerItem worldAB 0 "a" (some 1) = some (true, afterRegister worldAB 0 "a" (some 1)) ∧
    (∀ op ∈ [Op.registerItem 1 "b" (some 2)], Op.setsSharedOf 1 op = false) ∧
    run (afterRegister worldAB 0 "a" (some 1)) [Op.registerItem 1 "b" (some 2)] =
      some (afterRun (afterRegister worldAB 0 "a" (some 1)) [Op.registerItem 1 "b" (some 2)]) ∧
    item (afterRun (afterRegister worldAB 0 "a" (some 1)) [Op.registerItem 1 "b" (some 2)])
      1 "a" = none ∧
    ∃ w₃, registerItem
        (afterRun (afterRegister worldAB 0 "a" (some 1)) [Op.registerItem 1 "b" (some 2)])
        1 "a" (some 2) = some (false, w₃) ∧
      w₃.factories =
        (afterRun (afterRegister worldAB 0 "a" (some 1))
          [Op.registerItem 1 "b" (some 2)]).factories ∧
      w₃.maps =
        (afterRun (afterRegister worldAB 0 "a" (some 1))
          [Op.registerItem 1 "b" (some 2)]).maps ∧
      sharedItem w₃ 1 "a" = some 1 ∧
      item w₃ 1 "a" =
        item (afterRun (afterRegister worldAB 0 "a" (some 1))
          [Op.registerItem 1 "b" (some 2)]) 1 "a" :=
  ⟨rfl, rfl, rfl, by decide, rfl, by decide,
    registerItem_collision worldAB (afterRegister worldAB 0 "a" (some 1)) 0 1 0 "a" (some 1)
      rfl rfl rfl [Op.registerItem 1 "b" (some 2)]
      (afterRun (afterRegister worldAB 0 "a" (some 1)) [Op.registerItem 1 "b" (some 2)])
      (by decide) rfl (some 2)⟩

/-- C5 (P5, shared map reflection): after `A.registerItem(k, x)` has returned
true, `A.sharedItem(k)` resolves to x, and so does `B.sharedItem(k)` for every
factory B given A's shared map by `B.setSharedItems(A.sharedItems())`: before
the registration (second part; the calls in between replace the shared map of
neither factory), or after it (third part; the calls in between do not replace
the shared map of A). -/
theorem sharedItem_reflection (w w₁ : World) (A : FacRef) (k : Key) (x : Option ItemRef)
    (hreg : registerItem w A k x = some (true, w₁)) :
    sharedItem w₁ A k = x ∧
    (∀ (B : FacRef) (w₀ : World) (ops : List Op),
      (∀ op ∈ ops, Op.setsSharedOf A op = false ∧ Op.setsSharedOf B op = false) →
      run (setSharedItems w₀ B (sharedItems w₀ A)) ops = some w →
      sharedItem w₁ B k = x) ∧
    (∀ (B : FacRef) (ops : List Op) (w₂ : World),
      (∀ op ∈ ops, Op.setsSharedOf A op = false) →
      run w₁ ops = some w₂ →
      sharedItem (setSharedItems w₂ B (sharedItems w₂ A)) B k = x) := by
  refine ⟨(sharedItem_after_register w w₁ A A k x hreg rfl).1, ?_, ?_⟩
  · intro B w₀ ops hops hrun
    have hA := run_sharedPtr ops _ w hrun A (fun op ho => (hops op ho).1)
    have hB := run_sharedPtr ops _ w hrun B (fun op ho => (hops op ho).2)
    have h0 : ((setSharedItems w₀ B (sharedItems w₀ A)).factories B).SharedRegisteredItemMap =
        ((setSharedItems w₀ B (sharedItems w₀ A)).factories A).SharedRegisteredItemMap := by
      by_cases hAB : A = B
      · subst hAB; rfl
      · simp [setSharedItems, sharedItems, Function.update_noteq hAB]
    exact (sharedItem_after_register w w₁ A B k x hreg (by rw [hA, hB, h0])).1
  · intro B ops w₂ hops hrun
    obtain ⟨m, p, rfl, hm, hfind⟩ := sharedEntry_after_register w w₁ A k x hreg
    have hA := run_sharedPtr ops w₁ w₂ hrun A hops
    have hfind₂ := run_sharedEntry ops w₁ w₂ hrun m k p hfind
    simp [sharedItem, setSharedItems, sharedItems, hA, hm, hfind₂]

/-- Reflection at three factories: factory 1 is given the map of factory 0 before
factory 0 registers "a", and factory 2 is given it after further calls; all
three resolve "a" to item 1. -/
theorem sharedItem_reflection_witness :
    registerItem worldAB 0 "a" (some 1) = some (true, afterRegister worldAB 0 "a" (some 1)) ∧
    run (setSharedItems worldB 1 (sharedItems worldB 0)) [] = some worldAB ∧
    run (afterRegister worldAB 0 "a" (some 1)) opsAfterB =
      some (afterRun (afterRegister worldAB 0 "a" (some 1)) opsAfterB) ∧
    sharedItem (afterRegister worldAB 0 "a" (some 1)) 0 "a" = some 1 ∧
    sharedItem (afterRegister worldAB 0 "a" (some 1)) 1 "a" = some 1 ∧
    sharedItem (setSharedItems (afterRun (afterRegister worldAB 0 "a" (some 1)) opsAfterB) 2
      (sharedItems (afterRun (afterRegister worldAB 0 "a" (some 1)) opsAfterB) 0)) 2 "a" =
        some 1 :=
  ⟨rfl, rfl, rfl,
    (sharedItem_reflection worldAB _ 0 "a" (some 1) rfl).1,
    (sharedItem_reflection worldAB _ 0 "a" (some 1) rfl).2.1 1 worldB []
      (fun _ h => nomatch h) rfl,
    (sharedItem_reflection worldAB _ 0 "a" (some 1) rfl).2.2 2 opsAfterB _
      (by decide) rfl⟩

/-! ## Instantiation -/

theorem item_instantiate_held (w : World) (r : ItemRef) (o : Obj)
    (h : (w.items r).Instance = some o) :
    ctkAbstractFactoryItem.instantiate w r = (some o, w) := by
  simp [ctkAbstractFactoryItem.instantiate, h]

theorem item_instantiate_fresh (w : World) (r : ItemRef)
    (h : (w.items r).Instance = none) :
    (ctkAbstractFactoryItem.instantiate w r).1 = (virtualInstanciator w r).1 ∧
    (ctkAbstractFactoryItem.instantiate w r).2.events =
      w.events ++ [Event.instanciator r (virtualInstanciator w r).1] ∧
    ((ctkAbstractFactoryItem.instantiate w r).2.items r).Instance =
      (virtualInstanciator w r).1 := by
  simp [ctkAbstractFactoryItem.instantiate, h, virtualInstanciator]

/-- The item holds what `instantiate` returned. -/
theorem item_instantiate_result (w : World) (r : ItemRef) :
    ((ctkAbstractFactoryItem.instantiate w r).2.items r).Instance =
      (ctkAbstractFactoryItem.instantiate w r).1 := by
  cases h : (w.items r).Instance with
  | none => rw [(item_instantiate_fresh w r h).1, (item_instantiate_fresh w r h).2.2]
  | some o => rw [item_instantiate_held w r o h]; exact h

theorem item_of_factories_eq (w w' : World) (h : w'.factories = w.factories) (f : FacRef)
    (k : Key) : item w' f k = item w f k := by
  simp [item, h]

theorem instantiate_of_item (w : World) (f : FacRef) (k : Key) (r : ItemRef)
    (hr : item w f k = some r) :
    instantiate w f k = ctkAbstractFactoryItem.instantiate w r := by
  simp [instantiate, hr]

theorem uninstantiate_of_item (w : World) (f : FacRef) (k : Key) (r : ItemRef)
    (hr : item w f k = some r) :
    uninstantiate w f k = ctkAbstractFactoryItem.uninstantiate w r := by
  simp [uninstantiate, hr]

/-- C6, as stated, fails in two ways. Item 3 is registered under "c" and holds
no instance; its instanciator returns the null pointer at the first call and
the object 301 at the second. Two successive calls of `instantiate("c")` return
the null pointer and then 301, and the instanciator is invoked twice. Once the
item holds 301, two more calls do not invoke the instanciator at all. -/
theorem memoized_counterexample :
    item (afterRegister worldA 0 "c" (some 3)) 0 "c" = some 3 ∧
    (instantiate (afterRegister worldA 0 "c" (some 3)) 0 "c").1 = none ∧
    (instantiate (instantiate (afterRegister worldA 0 "c" (some 3)) 0 "c").2 0 "c").1 =
      some 301 ∧
    (instantiate (instantiate (afterRegister worldA 0 "c" (some 3)) 0 "c").2 0 "c").2.events =
      (afterRegister worldA 0 "c" (some 3)).events ++
        [Event.instanciator 3 none, Event.instanciator 3 (some 301)] ∧
    (instantiate (instantiate (instantiate (instantiate
        (afterRegister worldA 0 "c" (some 3)) 0 "c").2 0 "c").2 0 "c").2 0 "c").2.events =
      (instantiate (instantiate (afterRegister worldA 0 "c" (some 3)) 0 "c").2 0 "c").2.events := by
  decide

/-- C6 (P2, memoized instantiation), amended: for a key registered in the
factory, when the first of two successive calls of `instantiate(k)` returns a
non-null instance, the second call returns the identical instance and changes
nothing, so it does not invoke the instanciator. The first call invokes the
instanciator exactly once when the item held no instance, and not at all when
it held one, which it then returns. -/
theorem instantiate_memoized (w : World) (f : FacRef) (k : Key) (r : ItemRef)
    (hr : item w f k = some r) :
    ((instantiate w f k).1 ≠ none →
      instantiate (instantiate w f k).2 f k = ((instantiate w f k).1, (instantiate w f k).2)) ∧
    ((w.items r).Instance = none →
      (instantiate w f k).2.events =
        w.events ++ [Event.instanciator r (instantiate w f k).1]) ∧
    ((w.items r).Instance ≠ none →
      instantiate w f k = ((w.items r).Instance, w)) := by
  have h1 := instantiate_of_item w f k r hr
  have hr' : item (instantiate w f k).2 f k = some r := by
    rw [item_of_factories_eq w _ (factory_instantiate_frame w f k).1, hr]
  have h2 := instantiate_of_item _ f k r hr'
  refine ⟨?_, ?_, ?_⟩
  · intro hne
    obtain ⟨o, ho⟩ := Option.ne_none_iff_exists'.mp hne
    have hheld : (((instantiate w f k).2).items r).Instance = some o := by
      rw [h1, item_instantiate_result, ← h1, ho]
    rw [h2, item_instantiate_held _ r o hheld, ho]
  · intro hnone
    rw [h1, (item_instantiate_fresh w r hnone).2.1, (item_instantiate_fresh w r hnone).1]
  · intro hne
    obtain ⟨o, ho⟩ := Option.ne_none_iff_exists'.mp hne
    rw [h1, item_instantiate_held w r o ho, ho]

/-- Memoization for item 1, registered under "a" and not yet instantiated. -/
theorem instantiate_memoized_witness :
    item worldA1 0 "a" = some 1 ∧
    ((instantiate worldA1 0 "a").1 ≠ none →
      instantiate (instantiate worldA1 0 "a").2 0 "a" =
        ((instantiate worldA1 0 "a").1, (instantiate worldA1 0 "a").2)) ∧
    ((worldA1.items 1).Instance = none →
      (instantiate worldA1 0 "a").2.events =
        worldA1.events ++ [Event.instanciator 1 (instantiate worldA1 0 "a").1]) ∧
    ((worldA1.items 1).Instance ≠ none →
      instantiate worldA1 0 "a" = ((worldA1.items 1).Instance, worldA1)) :=
  ⟨rfl, instantiate_memoized worldA1 0 "a" 1 rfl⟩

/-! ## Uninstantiation -/

theorem item_uninstantiate_none (w : World) (r : ItemRef)
    (h : (w.items r).Instance = none) :
    ctkAbstractFactoryItem.uninstantiate w r = w := by
  simp [ctkAbstractFactoryItem.uninstantiate, h]

theorem item_uninstantiate_some (w : World) (r : ItemRef) (o : Obj)
    (h : (w.items r).Instance = some o) :
    (ctkAbstractFactoryItem.uninstantiate w r).events = w.events ++ [Event.destroy r o] ∧
    ((ctkAbstractFactoryItem.uninstantiate w r).items r).Instance = none ∧
    ((ctkAbstractFactoryItem.uninstantiate w r).items r).Verbose = (w.items r).Verbose := by
  simp [ctkAbstractFactoryItem.uninstantiate, h]

theorem item_uninstantiate_instance (w : World) (r : ItemRef) :
    ((ctkAbstractFactoryItem.uninstantiate w r).items r).Instance = none := by
  cases h : (w.items r).Instance with
  | none => rw [item_uninstantiate_none w r h]; exact h
  | some o => exact (item_uninstantiate_some w r o h).2.1

theorem item_uninstantiate_twice (w : World) (r : ItemRef) :
    ctkAbstractFactoryItem.uninstantiate (ctkAbstractFactoryItem.uninstantiate w r) r =
      ctkAbstractFactoryItem.uninstantiate w r :=
  item_uninstantiate_none _ r (item_uninstantiate_instance w r)

/-- C7, as stated, fails when the instanciator builds nothing. Item 4 is
registered under "d" and its instanciator returns the null pointer: the first
`instantiate("d")` returns null, `uninstantiate("d")` destroys nothing, and the
second `instantiate("d")` returns the same null pointer, not a new object. -/
theorem round_trip_counterexample :
    item (afterRegister worldA 0 "d" (some 4)) 0 "d" = some 4 ∧
    (instantiate (afterRegister worldA 0 "d" (some 4)) 0 "d").1 = none ∧
    (uninstantiate (instantiate (afterRegister worldA 0 "d" (some 4)) 0 "d").2 0 "d").events =
      (instantiate (afterRegister worldA 0 "d" (some 4)) 0 "d").2.events ∧
    (instantiate (uninstantiate (instantiate (afterRegister worldA 0 "d" (some 4)) 0 "d").2
        0 "d") 0 "d").1 =
      (instantiate (afterRegister worldA 0 "d" (some 4)) 0 "d").1 := by
  decide

/-- C7 (P4, round trip), amended: for a registered key k, after `instantiate(k)`
and `uninstantiate(k)` the item holds no instance, and an object returned by
the first `instantiate` has been destroyed by `uninstantiate`; the second
`instantiate(k)` invokes the instanciator, returns exactly what this invocation
returns, and the item holds that result. -/
theorem instantiate_round_trip (w : World) (f : FacRef) (k : Key) (r : ItemRef)
    (hr : item w f k = some r) :
    ((uninstantiate (instantiate w f k).2 f k).items r).Instance = none ∧
    (∀ o, (instantiate w f k).1 = some o →
      (uninstantiate (instantiate w f k).2 f k).events =
        (instantiate w f k).2.events ++ [Event.destroy r o]) ∧
    (instantiate (uninstantiate (instantiate w f k).2 f k) f k).1 =
      (virtualInstanciator (uninstantiate (instantiate w f k).2 f k) r).1 ∧
    (instantiate (uninstantiate (instantiate w f k).2 f k) f k).2.events =
      (uninstantiate (instantiate w f k).2 f k).events ++
        [Event.instanciator r
          (instantiate (uninstantiate (instantiate w f k).2 f k) f k).1] ∧
    ((instantiate (uninstantiate (instantiate w f k).2 f k) f k).2.items r).Instance =
      (instantiate (uninstantiate (instantiate w f k).2 f k) f k).1 := by
  have hr₁ : item (instantiate w f k).2 f k = some r := by
    rw [item_of_factories_eq w _ (factory_instantiate_frame w f k).1, hr]
  have hr₂ : item (uninstantiate (instantiate w f k).2 f k) f k = some r := by
    rw [item_of_factories_eq _ _ (factory_uninstantiate_frame _ f k).1, hr₁]
  have hu := uninstantiate_of_item _ f k r hr₁
  have hnone : ((uninstantiate (instantiate w f k).2 f k).items r).Instance = none := by
    rw [hu]; exact item_uninstantiate_instance _ r
  have hi := instantiate_of_item _ f k r hr₂
  refine ⟨hnone, ?_, ?_, ?_, ?_⟩
  · intro o ho
    have hheld : (((instantiate w f k).2).items r).Instance = some o := by
      rw [instantiate_of_item w f k r hr, item_instantiate_result,
        ← instantiate_of_item w f k r hr, ho]
    rw [hu]; exact (item_uninstantiate_some _ r o hheld).1
  · rw [hi]; exact (item_instantiate_fresh _ r hnone).1
  · rw [hi, (item_instantiate_fresh _ r hnone).2.1, (item_instantiate_fresh _ r hnone).1]
  · rw [hi]; exact item_instantiate_result _ r

/-- The round trip for item 1, registered under "a". -/
theorem instantiate_round_trip_witness :
    item worldA1 0 "a" = some 1 ∧
    ((uninstantiate (instantiate worldA1 0 "a").2 0 "a").items 1).Instance = none ∧
    (∀ o, (instantiate worldA1 0 "a").1 = some o →
      (uninstantiate (instantiate worldA1 0 "a").2 0 "a").events =
        (instantiate worldA1 0 "a").2.events ++ [Event.destroy 1 o]) ∧
    (instantiate (uninstantiate (instantiate worldA1 0 "a").2 0 "a") 0 "a").1 =
      (virtualInstanciator (uninstantiate (instantiate worldA1 0 "a").2 0 "a") 1).1 ∧
    (instantiate (uninstantiate (instantiate worldA1 0 "a").2 0 "a") 0 "a").2.events =
      (uninstantiate (instantiate worldA1 0 "a").2 0 "a").events ++
        [Event.instanciator 1
          (instantiate (uninstantiate (instantiate worldA1 0 "a").2 0 "a") 0 "a").1] ∧
    ((instantiate (uninstantiate (instantiate worldA1 0 "a").2 0 "a") 0 "a").2.items 1).Instance =
      (instantiate (uninstantiate (instantiate worldA1 0 "a").2 0 "a") 0 "a").1 :=
  ⟨rfl, instantiate_round_trip worldA1 0 "a" 1 rfl⟩

/-- C8 (P3, uninstantiate idempotence): on an item that holds no instance
`uninstantiate()` changes nothing; a second `uninstantiate()` changes nothing
after a first one, which leaves the instance absent and the verbose flag as it
was, and destroys at most one object (the one held); the factory's
`uninstantiate(k)` changes nothing when the item under k holds no instance or
k is not registered, and changes nothing when called a second time. -/
theorem uninstantiate_idempotent (w : World) :
    (∀ r, (w.items r).Instance = none → ctkAbstractFactoryItem.uninstantiate w r = w) ∧
    (∀ r, ctkAbstractFactoryItem.uninstantiate (ctkAbstractFactoryItem.uninstantiate w r) r =
      ctkAbstractFactoryItem.uninstantiate w r) ∧
    (∀ r, ((ctkAbstractFactoryItem.uninstantiate w r).items r).Instance = none ∧
      ((ctkAbstractFactoryItem.uninstantiate w r).items r).Verbose = (w.items r).Verbose ∧
      (ctkAbstractFactoryItem.uninstantiate w r).events =
        w.events ++ ((w.items r).Instance.map (Event.destroy r)).toList) ∧
    (∀ f k, (∀ r, item w f k = some r → (w.items r).Instance = none) →
      uninstantiate w f k = w) ∧
    (∀ f k, uninstantiate (uninstantiate w f k) f k = uninstantiate w f k) := by
  refine ⟨fun r h => item_uninstantiate_none w r h, fun r => item_uninstantiate_twice w r,
    ?_, ?_, ?_⟩
  · intro r
    refine ⟨item_uninstantiate_instance w r, ?_, ?_⟩
    · cases h : (w.items r).Instance with
      | none => rw [item_uninstantiate_none w r h]
      | some o => exact (item_uninstantiate_some w r o h).2.2
    · cases h : (w.items r).Instance with
      | none => rw [item_uninstantiate_none w r h]; simp
      | some o => rw [(item_uninstantiate_some w r o h).1]; simp
  · intro f k h
    cases hr : item w f k with
    | none => simp [uninstantiate, hr]
    | some r => rw [uninstantiate_of_item w f k r hr, item_uninstantiate_none w r (h r hr)]
  · intro f k
    cases hr : item w f k with
    | none => simp [uninstantiate, hr]
    | some r =>
      have hr' : item (uninstantiate w f k) f k = some r := by
        rw [item_of_factories_eq w _ (factory_uninstantiate_frame w f k).1, hr]
      rw [uninstantiate_of_item _ f k r hr', uninstantiate_of_item w f k r hr]
      exact item_uninstantiate_twice w r

/-- Idempotence in a heap where item 1 holds the object 100 and item 2 holds
nothing. -/
theorem uninstantiate_idempotent_witness :
    (worldA1i.items 1).Instance = some 100 ∧
    ((worldA1i.items 2).Instance = none →
      ctkAbstractFactoryItem.uninstantiate worldA1i 2 = worldA1i) ∧
    ctkAbstractFactoryItem.uninstantiate (ctkAbstractFactoryItem.uninstantiate worldA1i 1) 1 =
      ctkAbstractFactoryItem.uninstantiate worldA1i 1 ∧
    (ctkAbstractFactoryItem.uninstantiate worldA1i 1).events =
      worldA1i.events ++ (((worldA1i.items 1).Instance.map (Event.destroy 1)).toList) ∧
    uninstantiate (uninstantiate worldA1i 0 "a") 0 "a" = uninstantiate worldA1i 0 "a" :=
  ⟨rfl, (uninstantiate_idempotent worldA1i).1 2,
    (uninstantiate_idempotent worldA1i).2.1 1,
    ((uninstantiate_idempotent worldA1i).2.2.1 1).2.2,
    (uninstantiate_idempotent worldA1i).2.2.2.2 0 "a"⟩

/-! ## The keys of the local map -/

theorem QHash.find_eq_none_iff (m : HashType) (k : Key) :
    QHash.find m k = none ↔ k ∉ m.map Prod.fst := by
  induction m with
  | nil => simp [QHash.find]
  | cons e m ih =>
    obtain ⟨k', v⟩ := e
    by_cases h : k' = k
    · simp [QHash.find, h]
    · simp only [QHash.find, h, if_false, ih, List.map_cons, List.mem_cons, not_or]
      exact ⟨fun hm => ⟨Ne.symm h, hm⟩, fun hm => hm.2⟩

theorem QHash.find_some_mem (m : HashType) (k : Key) (v : Option ItemRef)
    (h : QHash.find m k = some v) : (k, v) ∈ m := by
  induction m with
  | nil => simp [QHash.find] at h
  | cons e m ih =>
    obtain ⟨k', v'⟩ := e
    by_cases hk : k' = k
    · simp only [QHash.find, hk, if_true, Option.some.injEq] at h
      subst hk; subst h
      exact List.mem_cons_self _ _
    · simp only [QHash.find, hk, if_false] at h
      exact List.mem_cons_of_mem _ (ih h)

theorem QHash.insert_of_not_mem (m : HashType) (k : Key) (v : Option ItemRef)
    (h : k ∉ m.map Prod.fst) : QHash.insert m k v = m ++ [(k, v)] := by
  induction m with
  | nil => simp [QHash.insert]
  | cons e m ih =>
    obtain ⟨k', v'⟩ := e
    simp only [List.map_cons, List.mem_cons, not_or] at h
    simp [QHash.insert, Ne.symm h.1, ih h.2]

theorem QHash.not_mem_of_unresolved (m : HashType) (k : Key) (hm : QHash.NoNull m)
    (h : (match QHash.find m k with | none => none | some v => v) = none) :
    k ∉ m.map Prod.fst := by
  rw [← QHash.find_eq_none_iff]
  cases hf : QHash.find m k with
  | none => rfl
  | some v =>
    rw [hf] at h
    exact absurd h (hm _ (QHash.find_some_mem m k v hf))

/-- One call appends to the keys of the local map of `f` exactly the key it
registered on `f`, if any. -/
theorem step_keys (w w' : World) (op : Op) (hstep : step w op = some w') (f : FacRef)
    (hnn : QHash.NoNull (w.factories f).RegisteredItemMap) :
    (w'.factories f).RegisteredItemMap.map Prod.fst =
      (w.factories f).RegisteredItemMap.map Prod.fst ++ registeredBy f w op ∧
    QHash.NoNull (w'.factories f).RegisteredItemMap ∧
    (((w.factories f).RegisteredItemMap.map Prod.fst).Nodup →
      ((w'.factories f).RegisteredItemMap.map Prod.fst).Nodup) := by
  have same : (w'.factories f).RegisteredItemMap = (w.factories f).RegisteredItemMap →
      registeredBy f w op = [] →
      (w'.factories f).RegisteredItemMap.map Prod.fst =
        (w.factories f).RegisteredItemMap.map Prod.fst ++ registeredBy f w op ∧
      QHash.NoNull (w'.factories f).RegisteredItemMap ∧
      (((w.factories f).RegisteredItemMap.map Prod.fst).Nodup →
        ((w'.factories f).RegisteredItemMap.map Prod.fst).Nodup) := by
    intro h1 h2
    rw [h1, h2]
    exact ⟨by simp, hnn, id⟩
  rcases step_local w w' op hstep f with h | ⟨key, p, rfl, hk, hi, htrue, h⟩
  · apply same h
    cases op with
    | registerItem g key x =>
      simp only [registeredBy]
      rw [if_neg]
      rintro ⟨rfl, htrue⟩
      simp only [step, Option.map_eq_some'] at hstep
      obtain ⟨⟨b, w''⟩, hreg, rfl⟩ := hstep
      rcases registerItem_cases w g key x with hn | ⟨w₁, h₁, -⟩ |
        ⟨p, m, w₁, rfl, hk, hi, -, -, -, h₁, hf, -, -⟩
      · rw [hn] at hreg; cases hreg
      · rw [h₁] at htrue; simp at htrue
      · rw [h₁] at hreg; cases hreg
        have hnot := QHash.not_mem_of_unresolved _ key hnn hi
        rw [hf] at h
        simp only [Function.update_same] at h
        rw [QHash.insert_of_not_mem _ _ _ hnot] at h
        have := congrArg List.length h
        simp at this
    | instantiate g key => rfl
    | uninstantiate g key => rfl
    | setSharedItems g items => rfl
    | setVerbose g value => rfl
  · have hnot := QHash.not_mem_of_unresolved _ key hnn hi
    rw [h, QHash.insert_of_not_mem _ _ _ hnot]
    refine ⟨?_, ?_, ?_⟩
    · simp [registeredBy, htrue]
    · intro e he
      rcases List.mem_append.mp he with he | he
      · exact hnn e he
      · simp only [List.mem_singleton] at he
        subst he; simp
    · intro hnd
      rw [List.map_append, List.nodup_append]
      refine ⟨hnd, by simp, ?_⟩
      intro a ha hb
      simp only [List.map_cons, List.map_nil, List.mem_singleton] at hb
      subst hb
      exact hnot ha

theorem run_keys (ops : List Op) (w w' : World) (hrun : run w ops = some w') (f : FacRef)
    (hnn : QHash.NoNull (w.factories f).RegisteredItemMap) :
    (w'.factories f).RegisteredItemMap.map Prod.fst =
      (w.factories f).RegisteredItemMap.map Prod.fst ++ registeredKeys f w ops ∧
    (((w.factories f).RegisteredItemMap.map Prod.fst).Nodup →
      ((w'.factories f).RegisteredItemMap.map Prod.fst).Nodup) := by
  induction ops generalizing w with
  | nil =>
    simp only [run, Option.some.injEq] at hrun
    subst hrun
    simp [registeredKeys]
  | cons op ops ih =>
    simp only [run] at hrun
    cases hs : step w op with
    | none => simp [hs] at hrun
    | some w₁ =>
      simp only [hs] at hrun
      obtain ⟨hk, hnn₁, hnd⟩ := step_keys w w₁ op hs f hnn
      obtain ⟨hk', hnd'⟩ := ih w₁ hrun hnn₁
      refine ⟨?_, fun h => hnd' (hnd h)⟩
      rw [hk', hk]
      simp [registeredKeys, hs]

/-- C9, as stated, fails on the order: the keys come out of a hash table, whose
iteration order is not the order of insertion. With a table that iterates from
the newest key to the oldest (reversal is a rearrangement), registering "b" and
then "a" on a new factory makes `itemKeys()` return "a" before "b". -/
theorem itemKeys_order_counterexample :
    (∀ l : List Key, (List.reverse l).Perm l) ∧
    (run worldA opsBA).isSome = true ∧
    registeredKeys 0 worldA opsBA = ["b", "a"] ∧
    itemKeys List.reverse (afterRun worldA opsBA) 0 = ["a", "b"] :=
  ⟨fun l => List.reverse_perm l, by decide, by decide, by decide⟩

/-- C9 (P7, itemKeys completeness), amended: after every sequence of public
operations applied to a newly constructed factory, `itemKeys()` returns exactly
the keys for which `registerItem` has returned true on this factory, each
exactly once, in the iteration order of the hash table (every rearrangement
`hashOrder` of the keys). -/
theorem itemKeys_complete (hashOrder : List Key → List Key)
    (hperm : ∀ l, (hashOrder l).Perm l) (w₀ : World) (f : FacRef) (ops : List Op)
    (w' : World) (hrun : run (ctkAbstractFactory.ctkAbstractFactory w₀ f) ops = some w') :
    (itemKeys hashOrder w' f).Perm
      (registeredKeys f (ctkAbstractFactory.ctkAbstractFactory w₀ f) ops) ∧
    (itemKeys hashOrder w' f).Nodup := by
  have hloc : ((ctkAbstractFactory.ctkAbstractFactory w₀ f).factories f).RegisteredItemMap = [] := by
    simp [ctkAbstractFactory.ctkAbstractFactory]
  have hnn : QHash.NoNull
      ((ctkAbstractFactory.ctkAbstractFactory w₀ f).factories f).RegisteredItemMap := by
    rw [hloc]; intro e he; cases he
  obtain ⟨hk, hnd⟩ := run_keys ops _ w' hrun f hnn
  rw [hloc] at hk hnd
  simp only [List.map_nil, List.nil_append] at hk
  have hp := hperm ((w'.factories f).RegisteredItemMap.map Prod.fst)
  refine ⟨?_, ?_⟩
  · simp only [itemKeys, QHash.keys]
    rw [← hk]; exact hp
  · simp only [itemKeys, QHash.keys]
    exact hp.nodup_iff.mpr (hnd (by simp))

/-- Completeness of the keys after "b" and "a" have been registered on a newly
constructed factory, for a table that iterates from the newest key to the
oldest. -/
theorem itemKeys_complete_witness :
    (∀ l : List Key, (List.reverse l).Perm l) ∧
    run (ctkAbstractFactory.ctkAbstractFactory world0 0) opsBA = some (afterRun worldA opsBA) ∧
    (itemKeys List.reverse (afterRun worldA opsBA) 0).Perm
      (registeredKeys 0 (ctkAbstractFactory.ctkAbstractFactory world0 0) opsBA) ∧
    (itemKeys List.reverse (afterRun worldA opsBA) 0).Nodup :=
  ⟨fun l => List.reverse_perm l, rfl,
    itemKeys_complete List.reverse (fun l => List.reverse_perm l) world0 0 opsBA
      (afterRun worldA opsBA) rfl⟩

/-! ## Local entries and the shared map -/

theorem QHash.noNull_insert (m : HashType) (k : Key) (p : ItemRef) (h : QHash.NoNull m) :
    QHash.NoNull (QHash.insert m k (some p)) := by
  induction m with
  | nil =>
    intro e he
    simp only [QHash.insert, List.mem_singleton] at he
    subst he; simp
  | cons e m ih =>
    obtain ⟨k', v'⟩ := e
    have hm : QHash.NoNull m := fun e he => h e (List.mem_cons_of_mem _ he)
    by_cases hk : k' = k
    · simp only [QHash.insert, hk, if_true]
      intro e he
      rcases List.mem_cons.mp he with he | he
      · subst he; simp
      · exact hm e he
    · simp only [QHash.insert, hk, if_false]
      intro e he
      rcases List.mem_cons.mp he with he | he
      · subst he; exact h _ (List.mem_cons_self _ _)
      · exact ih hm e he

theorem step_localInShared (w w' : World) (op : Op) (hstep : step w op = some w')
    (f : FacRef) (m : MapRef) (hop : Op.setsSharedOf f op = false)
    (hinv : LocalInShared w f m) : LocalInShared w' f m := by
  obtain ⟨hsh, hnn, hin⟩ := hinv
  have same : w'.factories f = w.factories f → w'.maps = w.maps → LocalInShared w' f m := by
    intro h1 h2
    refine ⟨by rw [h1]; exact hsh, by rw [h1]; exact hnn, ?_⟩
    intro k h hk
    rw [h1] at hk; rw [h2]; exact hin k h hk
  cases op with
  | registerItem g key x =>
    simp only [step, Option.map_eq_some'] at hstep
    obtain ⟨⟨b, w''⟩, hreg, rfl⟩ := hstep
    rcases registerItem_cases w g key x with hn | ⟨w₁, h₁, hf, hm, -⟩ |
      ⟨p, m', w₁, rfl, hk, hi, hs, -, hm', h₁, hf, hmaps, -⟩
    · rw [hn] at hreg; cases hreg
    · rw [h₁] at hreg; cases hreg
      exact same (by rw [hf]) hm
    · rw [h₁] at hreg; cases hreg
      by_cases hg : g = f
      · subst hg
        have hmm : m' = m := by rw [hsh] at hm'; exact (Option.some.inj hm').symm
        subst hmm
        refine ⟨by simp [hf, hsh], ?_, ?_⟩
        · simp only [hf, Function.update_same]
          exact QHash.noNull_insert _ key p hnn
        · intro k h hfind
          simp only [hf, Function.update_same] at hfind
          simp only [hmaps, Function.update_same]
          by_cases hkk : k = key
          · subst hkk
            rw [QHash.find_insert_self] at hfind
            rw [QHash.find_insert_self]; exact hfind
          · rw [QHash.find_insert_ne _ _ _ _ hkk] at hfind
            rw [QHash.find_insert_ne _ _ _ _ hkk]; exact hin k h hfind
      · have hff : w''.factories f = w.factories f := by
          rw [hf, Function.update_noteq (Ne.symm hg)]
        show LocalInShared w'' f m
        refine ⟨by rw [hff]; exact hsh, by rw [hff]; exact hnn, ?_⟩
        intro k h hfind
        rw [hff] at hfind
        have hshared := hin k h hfind
        by_cases hmm : m = m'
        · subst hmm
          have hkk : k ≠ key := by
            rintro rfl
            have hne : h ≠ none := hnn _ (QHash.find_some_mem _ _ _ hfind)
            simp only [sharedItem, hm', hshared] at hs
            exact hne hs
          simp only [hmaps, Function.update_same]
          rw [QHash.find_insert_ne _ _ _ _ hkk]; exact hshared
        · rw [hmaps, Function.update_noteq hmm]; exact hshared
  | instantiate g key =>
    simp only [step, Option.some.injEq] at hstep
    subst hstep
    exact same (by rw [(factory_instantiate_frame w g key).1])
      (factory_instantiate_frame w g key).2.1
  | uninstantiate g key =>
    simp only [step, Option.some.injEq] at hstep
    subst hstep
    exact same (by rw [(factory_uninstantiate_frame w g key).1])
      (factory_uninstantiate_frame w g key).2.1
  | setSharedItems g items =>
    simp only [step, Option.some.injEq] at hstep
    subst hstep
    have hg : g ≠ f := by simpa [Op.setsSharedOf] using hop
    exact same (by simp [setSharedItems, Function.update_noteq (Ne.symm hg)]) rfl
  | setVerbose g value =>
    simp only [step, Option.some.injEq] at hstep
    subst hstep
    by_cases hg : g = f
    · subst hg
      refine ⟨by simp [setVerbose, hsh], by simpa [setVerbose] using hnn, ?_⟩
      intro k h hfind
      simp only [setVerbose, Function.update_same] at hfind
      exact hin k h hfind
    · exact same (by simp [setVerbose, Function.update_noteq (Ne.symm hg)]) rfl

theorem run_localInShared (ops : List Op) (w w' : World) (hrun : run w ops = some w')
    (f : FacRef) (m : MapRef) (hops : ∀ op ∈ ops, Op.setsSharedOf f op = false)
    (hinv : LocalInShared w f m) : LocalInShared w' f m := by
  induction ops generalizing w with
  | nil =>
    simp only [run, Option.some.injEq] at hrun
    subst hrun; exact hinv
  | cons op ops ih =>
    simp only [run] at hrun
    cases hs : step w op with
    | none => simp [hs] at hrun
    | some w₁ =>
      simp only [hs] at hrun
      exact ih w₁ hrun (fun o ho => hops o (List.mem_cons_of_mem _ ho))
        (step_localInShared w w₁ op hs f m (hops op (List.mem_cons_self _ _)) hinv)

/-- C10, as stated, fails after `setSharedItems`: factory 0 registers "a" and
is then given the shared map of factory 1 (`sharedItems()` of factory 1 is the
map 1); "a" is in the local map of factory 0 and not in its current shared
map. -/
theorem local_in_shared_counterexample :
    sharedItems worldB 1 = some 1 ∧
    (run worldB opsShare).isSome = true ∧
    QHash.find ((afterRun worldB opsShare).factories 0).RegisteredItemMap "a" = some (some 1) ∧
    ((afterRun worldB opsShare).factories 0).SharedRegisteredItemMap = some 1 ∧
    QHash.find ((afterRun worldB opsShare).maps 1) "a" = none := by
  decide

/-- C10 (local-in-shared invariant), amended: in every state reached from a
newly constructed factory by public operations on any factories, none of them
a `setSharedItems` on this factory, the factory still holds a shared map and
every key of its local map is in that shared map with the identical item. -/
theorem local_in_shared (w₀ : World) (f : FacRef) (ops : List Op) (w' : World)
    (hops : ∀ op ∈ ops, Op.setsSharedOf f op = false)
    (hrun : run (ctkAbstractFactory.ctkAbstractFactory w₀ f) ops = some w') :
    ∃ m, (w'.factories f).SharedRegisteredItemMap = some m ∧
      ∀ k h, QHash.find (w'.factories f).RegisteredItemMap k = some h →
        QHash.find (w'.maps m) k = some h := by
  have hinit : LocalInShared (ctkAbstractFactory.ctkAbstractFactory w₀ f) f w₀.nextMap := by
    refine ⟨by simp [ctkAbstractFactory.ctkAbstractFactory], ?_, ?_⟩
    · intro e he
      simp [ctkAbstractFactory.ctkAbstractFactory] at he
    · intro k h hfind
      simp [ctkAbstractFactory.ctkAbstractFactory, QHash.find] at hfind
  obtain ⟨hsh, -, hin⟩ := run_localInShared ops _ w' hrun f w₀.nextMap hops hinit
  exact ⟨w₀.nextMap, hsh, hin⟩

/-- The invariant after calls on two factories that share the map of factory 0. -/
theorem local_in_shared_witness :
    (∀ op ∈ opsKeep, Op.setsSharedOf 0 op = false) ∧
    run (ctkAbstractFactory.ctkAbstractFactory worldC 0) opsKeep =
      some (afterRun (ctkAbstractFactory.ctkAbstractFactory worldC 0) opsKeep) ∧
    QHash.find ((afterRun (ctkAbstractFactory.ctkAbstractFactory worldC 0)
      opsKeep).factories 0).RegisteredItemMap "a" = some (some 1) ∧
    ∃ m, ((afterRun (ctkAbstractFactory.ctkAbstractFactory worldC 0)
        opsKeep).factories 0).SharedRegisteredItemMap = some m ∧
      ∀ k h, QHash.find ((afterRun (ctkAbstractFactory.ctkAbstractFactory worldC 0)
          opsKeep).factories 0).RegisteredItemMap k = some h →
        QHash.find ((afterRun (ctkAbstractFactory.ctkAbstractFactory worldC 0)
          opsKeep).maps m) k = some h :=
  ⟨by decide, rfl, by decide,
    local_in_shared worldC 0 opsKeep
      (afterRun (ctkAbstractFactory.ctkAbstractFactory worldC 0) opsKeep) (by decide) rfl⟩

/-! ## Lookups in the local map only -/

theorem item_eq_none_of_find (w : World) (f : FacRef) (k : Key)
    (h : QHash.find (w.factories f).RegisteredItemMap k = none) : item w f k = none := by
  simp [item, h]

theorem instantiate_miss (w : World) (f : FacRef) (k : Key) (h : item w f k = none) :
    instantiate w f k = (none, w) := by
  simp [instantiate, h]

theorem uninstantiate_miss (w : World) (f : FacRef) (k : Key) (h : item w f k = none) :
    uninstantiate w f k = w := by
  simp [uninstantiate, h]

/-- C11 (local-only lookup): `item`, `instantiate` and `uninstantiate` read the
local map and the items only: replacing the shared map of the factory and the
contents of all shared maps changes none of their results. When A and B hold the same shared map, A has registered
x under k and B has no k in its local map, `B.sharedItem(k)` resolves to x,
`B.item(k)` is absent, `B.instantiate(k)` returns null and `B.uninstantiate(k)`
returns, both leaving the whole heap (the instance of x, the events, hence the
calls of the instanciator) as it was. -/
theorem local_only_lookup (w w₁ : World) (A B : FacRef) (m : MapRef) (k : Key)
    (x : Option ItemRef)
    (hA : (w.factories A).SharedRegisteredItemMap = some m)
    (hB : (w.factories B).SharedRegisteredItemMap = some m)
    (hreg : registerItem w A k x = some (true, w₁))
    (hBk : item w₁ B k = none) :
    (∀ (u : World) (f : FacRef) (k' : Key) (s : Option MapRef) (mp : MapRef → HashType),
      item { setSharedItems u f s with maps := mp } f k' = item u f k' ∧
      (instantiate { setSharedItems u f s with maps := mp } f k').1 = (instantiate u f k').1 ∧
      (uninstantiate { setSharedItems u f s with maps := mp } f k').items =
        (uninstantiate u f k').items) ∧
    x ≠ none ∧ sharedItem w₁ B k = x ∧ item w₁ B k = none ∧
    instantiate w₁ B k = (none, w₁) ∧ uninstantiate w₁ B k = w₁ := by
  obtain ⟨hs, hx, -⟩ := sharedItem_after_register w w₁ A B k x hreg (by rw [hA, hB])
  refine ⟨?_, hx, hs, hBk, instantiate_miss w₁ B k hBk, uninstantiate_miss w₁ B k hBk⟩
  intro u f k' s mp
  have hi : item { setSharedItems u f s with maps := mp } f k' = item u f k' := by
    simp [item, setSharedItems]
  refine ⟨hi, ?_, ?_⟩
  · simp only [instantiate, hi]
    cases item u f k' with
    | none => rfl
    | some r =>
      simp only [ctkAbstractFactoryItem.instantiate, setSharedItems, virtualInstanciator]
      cases (u.items r).Instance <;> rfl
  · simp only [uninstantiate, hi]
    cases item u f k' with
    | none => rfl
    | some r =>
      simp only [ctkAbstractFactoryItem.uninstantiate, setSharedItems]
      cases (u.items r).Instance <;> rfl

/-- Local-only lookup at two constructed factories that hold the map of
factory 0, after factory 0 has registered item 1 under "a". -/
theorem local_only_lookup_witness :
    (worldAB.factories 0).SharedRegisteredItemMap = some 0 ∧
    (worldAB.factories 1).SharedRegisteredItemMap = some 0 ∧
    registerItem worldAB 0 "a" (some 1) = some (true, afterRegister worldAB 0 "a" (some 1)) ∧
    sharedItem (afterRegister worldAB 0 "a" (some 1)) 1 "a" = some 1 ∧
    item (afterRegister worldAB 0 "a" (some 1)) 1 "a" = none ∧
    instantiate (afterRegister worldAB 0 "a" (some 1)) 1 "a" =
      (none, afterRegister worldAB 0 "a" (some 1)) ∧
    uninstantiate (afterRegister worldAB 0 "a" (some 1)) 1 "a" =
      afterRegister worldAB 0 "a" (some 1) :=
  ⟨rfl, rfl, rfl,
    (local_only_lookup worldAB (afterRegister worldAB 0 "a" (some 1)) 0 1 0 "a" (some 1)
      rfl rfl rfl rfl).2.2⟩

/-! ## Rejected registrations and lookup misses -/

theorem virtualLoad_frame (w : World) (p : ItemRef) :
    (virtualLoad w p).2.factories = w.factories ∧ (virtualLoad w p).2.maps = w.maps ∧
    (virtualLoad w p).2.nextMap = w.nextMap ∧
    ∀ r, ((virtualLoad w p).2.items r).Instance = (w.items r).Instance ∧
      ((virtualLoad w p).2.items r).Verbose = (w.items r).Verbose := by
  refine ⟨rfl, rfl, rfl, ?_⟩
  intro r
  by_cases hr : r = p
  · subst hr; simp [virtualLoad]
  · simp [virtualLoad, Function.update_noteq hr]

/-- A call of `registerItem` that returns false leaves the factories, the
shared maps and the members `Instance` and `Verbose` of every item as they
were. -/
theorem registerItem_false_frame (w w' : World) (f : FacRef) (key : Key)
    (h : Option ItemRef) (hreg : registerItem w f key h = some (false, w')) :
    w'.factories = w.factories ∧ w'.maps = w.maps ∧ w'.nextMap = w.nextMap ∧
    ∀ r, (w'.items r).Instance = (w.items r).Instance ∧
      (w'.items r).Verbose = (w.items r).Verbose := by
  by_cases hc : h = none ∨ key = "" ∨ item w f key ≠ none
  · rw [registerItem_sanity w f key h hc] at hreg
    simp only [Option.some.injEq, Prod.mk.injEq, true_and] at hreg
    subst hreg
    obtain ⟨h1, h2, h3, h4⟩ := World.ite_emit_frame w (verbose w f) (Event.debugKeyEmptyOrExists key h)
    exact ⟨h3, h2, h4, fun r => by rw [h1]; exact ⟨rfl, rfl⟩⟩
  · by_cases hs : sharedItem w f key ≠ none
    · rw [registerItem_shared w f key h hc hs] at hreg
      simp only [Option.some.injEq, Prod.mk.injEq, true_and] at hreg
      subst hreg
      obtain ⟨h1, h2, h3, h4⟩ := World.ite_emit_frame w (verbose w f) (Event.debugAlreadyRegistered key)
      exact ⟨h3, h2, h4, fun r => by rw [h1]; exact ⟨rfl, rfl⟩⟩
    · simp only [not_or, not_not] at hc hs
      obtain ⟨hh, hk, hi⟩ := hc
      obtain ⟨p, rfl⟩ := Option.ne_none_iff_exists'.mp hh
      cases hl : (virtualLoad w p).1
      · rw [registerItem_load_false w f key p hk hi hs hl] at hreg
        simp only [Option.some.injEq, Prod.mk.injEq, true_and] at hreg
        subst hreg
        obtain ⟨h1, h2, h3, h4⟩ := World.ite_emit_frame (virtualLoad w p).2 (verbose w f)
          (Event.criticalFailedToLoad key
            (if (!(virtualLoadErrorString (virtualLoad w p).2 p).isEmpty) = true then
              " - " ++ virtualLoadErrorString (virtualLoad w p).2 p
            else ""))
        obtain ⟨g1, g2, g3, g4⟩ := virtualLoad_frame w p
        exact ⟨h3.trans g1, h2.trans g2, h4.trans g3, fun r => by rw [h1]; exact g4 r⟩
      · rcases Option.eq_none_or_eq_some (w.factories f).SharedRegisteredItemMap with
          hm | ⟨m, hm⟩
        · rw [registerItem_null w f key p hk hi hl hm] at hreg; cases hreg
        · rw [registerItem_store w f key p hk hi hs hl m hm] at hreg
          simp at hreg

/-- C13 (failure atomicity of registration): when `registerItem(key, item)`
returns false, for whatever reason, the local map, the shared map (every local
and every shared map, and the shared map each factory holds), the verbose flag
of the factory and the instance held by every item are the same after the call
as before it. -/
theorem registerItem_failure_atomic (w w' : World) (f : FacRef) (key : Key)
    (h : Option ItemRef) (hreg : registerItem w f key h = some (false, w')) :
    (∀ g, (w'.factories g).RegisteredItemMap = (w.factories g).RegisteredItemMap ∧
      (w'.factories g).SharedRegisteredItemMap = (w.factories g).SharedRegisteredItemMap ∧
      verbose w' g = verbose w g) ∧
    w'.maps = w.maps ∧
    (∀ r, (w'.items r).Instance = (w.items r).Instance ∧
      ctkAbstractFactoryItem.instantiated w' r = ctkAbstractFactoryItem.instantiated w r) := by
  obtain ⟨hf, hm, -, hi⟩ := registerItem_false_frame w w' f key h hreg
  refine ⟨fun g => by simp [verbose, hf], hm, fun r => ⟨(hi r).1, ?_⟩⟩
  simp [ctkAbstractFactoryItem.instantiated, (hi r).1]

/-- Failure atomicity where "a" is registered and instantiated, for a second
registration of "a". -/
theorem registerItem_failure_atomic_witness :
    registerItem worldA1i 0 "a" (some 2) =
      some (false, afterRegister worldA1i 0 "a" (some 2)) ∧
    (∀ g, ((afterRegister worldA1i 0 "a" (some 2)).factories g).RegisteredItemMap =
        (worldA1i.factories g).RegisteredItemMap ∧
      ((afterRegister worldA1i 0 "a" (some 2)).factories g).SharedRegisteredItemMap =
        (worldA1i.factories g).SharedRegisteredItemMap ∧
      verbose (afterRegister worldA1i 0 "a" (some 2)) g = verbose worldA1i g) ∧
    (afterRegister worldA1i 0 "a" (some 2)).maps = worldA1i.maps ∧
    (∀ r, ((afterRegister worldA1i 0 "a" (some 2)).items r).Instance =
        (worldA1i.items r).Instance ∧
      ctkAbstractFactoryItem.instantiated (afterRegister worldA1i 0 "a" (some 2)) r =
        ctkAbstractFactoryItem.instantiated worldA1i r) :=
  ⟨rfl, registerItem_failure_atomic worldA1i (afterRegister worldA1i 0 "a" (some 2)) 0 "a"
    (some 2) rfl⟩

/-- C14 (lookup miss is not an error): for a key that is not in the local map,
the empty key included, `item(key)` is absent, `instantiate(key)` returns null
and `uninstantiate(key)` returns, and the heap (maps, items, events) is as
before; `sharedItem(key)` is absent when the factory holds no shared map and
when the key is not in the shared map. -/
theorem lookup_miss (w : World) (f : FacRef) (key : Key) :
    (QHash.find (w.factories f).RegisteredItemMap key = none →
      item w f key = none ∧ instantiate w f key = (none, w) ∧ uninstantiate w f key = w) ∧
    ((w.factories f).SharedRegisteredItemMap = none → sharedItem w f key = none) ∧
    (∀ m, (w.factories f).SharedRegisteredItemMap = some m →
      QHash.find (w.maps m) key = none → sharedItem w f key = none) := by
  refine ⟨?_, ?_, ?_⟩
  · intro h
    have hi := item_eq_none_of_find w f key h
    exact ⟨hi, instantiate_miss w f key hi, uninstantiate_miss w f key hi⟩
  · intro h; simp [sharedItem, h]
  · intro m hm h; simp [sharedItem, hm, h]

/-- Lookup misses at a factory that has registered "a" only: the keys "b" and
"" miss in the local map and in the shared map, and every key misses in the
shared map of a factory that holds none. -/
theorem lookup_miss_witness :
    QHash.find (worldA1.factories 0).RegisteredItemMap "b" = none ∧
    (item worldA1 0 "b" = none ∧ instantiate worldA1 0 "b" = (none, worldA1) ∧
      uninstantiate worldA1 0 "b" = worldA1) ∧
    (item worldA1 0 "" = none ∧ instantiate worldA1 0 "" = (none, worldA1) ∧
      uninstantiate worldA1 0 "" = worldA1) ∧
    sharedItem worldA1 5 "a" = none ∧
    sharedItem worldA1 0 "b" = none :=
  ⟨by decide, (lookup_miss worldA1 0 "b").1 (by decide), (lookup_miss worldA1 0 "").1 (by decide),
    (lookup_miss worldA1 5 "a").2.1 rfl, (lookup_miss worldA1 0 "b").2.2 0 rfl (by decide)⟩

/-! ## Independence of the keys -/

/-- `instantiate()` on an item leaves every other item as it was, and the
verbose flag of the item itself. -/
theorem item_instantiate_others (w : World) (r₁ : ItemRef) :
    (∀ r, r ≠ r₁ → (ctkAbstractFactoryItem.instantiate w r₁).2.items r = w.items r) ∧
    ((ctkAbstractFactoryItem.instantiate w r₁).2.items r₁).Verbose = (w.items r₁).Verbose := by
  cases h : (w.items r₁).Instance with
  | some o => rw [item_instantiate_held w r₁ o h]; exact ⟨fun _ _ => rfl, rfl⟩
  | none =>
    constructor
    · intro r hr
      simp [ctkAbstractFactoryItem.instantiate, h, virtualInstanciator, Function.update_noteq hr]
    · simp [ctkAbstractFactoryItem.instantiate, h, virtualInstanciator]

/-- `uninstantiate()` on an item leaves every other item as it was, and the
verbose flag of the item itself. -/
theorem item_uninstantiate_others (w : World) (r₁ : ItemRef) :
    (∀ r, r ≠ r₁ → (ctkAbstractFactoryItem.uninstantiate w r₁).items r = w.items r) ∧
    ((ctkAbstractFactoryItem.uninstantiate w r₁).items r₁).Verbose = (w.items r₁).Verbose := by
  cases h : (w.items r₁).Instance with
  | none => rw [item_uninstantiate_none w r₁ h]; exact ⟨fun _ _ => rfl, rfl⟩
  | some o =>
    constructor
    · intro r hr
      simp [ctkAbstractFactoryItem.uninstantiate, h, Function.update_noteq hr]
    · exact (item_uninstantiate_some w r₁ o h).2.2

/-- C20 (per-key independence): when the distinct keys k₁ and k₂ are registered
in a factory with distinct items, `instantiate(k₁)` and `uninstantiate(k₁)`
leave every local map and every shared map as it was, leave the item under k₂
(its instance, hence `instantiated()`) and every item other than the one under
k₁ as it was, and leave the verbose flag of the item under k₁ as it was. -/
theorem per_key_independence (w : World) (f : FacRef) (k₁ k₂ : Key) (r₁ r₂ : ItemRef)
    (_hk : k₁ ≠ k₂) (h₁ : item w f k₁ = some r₁) (_h₂ : item w f k₂ = some r₂)
    (hr : r₁ ≠ r₂) :
    ((instantiate w f k₁).2.factories = w.factories ∧
      (instantiate w f k₁).2.maps = w.maps ∧
      ((instantiate w f k₁).2.items r₂).Instance = (w.items r₂).Instance ∧
      ctkAbstractFactoryItem.instantiated (instantiate w f k₁).2 r₂ =
        ctkAbstractFactoryItem.instantiated w r₂ ∧
      (∀ r, r ≠ r₁ → (instantiate w f k₁).2.items r = w.items r) ∧
      ((instantiate w f k₁).2.items r₁).Verbose = (w.items r₁).Verbose) ∧
    ((uninstantiate w f k₁).factories = w.factories ∧
      (uninstantiate w f k₁).maps = w.maps ∧
      ((uninstantiate w f k₁).items r₂).Instance = (w.items r₂).Instance ∧
      ctkAbstractFactoryItem.instantiated (uninstantiate w f k₁) r₂ =
        ctkAbstractFactoryItem.instantiated w r₂ ∧
      (∀ r, r ≠ r₁ → (uninstantiate w f k₁).items r = w.items r) ∧
      ((uninstantiate w f k₁).items r₁).Verbose = (w.items r₁).Verbose) := by
  have hi := instantiate_of_item w f k₁ r₁ h₁
  have hu := uninstantiate_of_item w f k₁ r₁ h₁
  obtain ⟨i1, i2⟩ := item_instantiate_others w r₁
  obtain ⟨u1, u2⟩ := item_uninstantiate_others w r₁
  constructor
  · refine ⟨(factory_instantiate_frame w f k₁).1, (factory_instantiate_frame w f k₁).2.1,
      ?_, ?_, ?_, ?_⟩
    · rw [hi, i1 r₂ (Ne.symm hr)]
    · simp only [ctkAbstractFactoryItem.instantiated]; rw [hi, i1 r₂ (Ne.symm hr)]
    · intro r hne; rw [hi]; exact i1 r hne
    · rw [hi]; exact i2
  · refine ⟨(factory_uninstantiate_frame w f k₁).1, (factory_uninstantiate_frame w f k₁).2.1,
      ?_, ?_, ?_, ?_⟩
    · rw [hu, u1 r₂ (Ne.symm hr)]
    · simp only [ctkAbstractFactoryItem.instantiated]; rw [hu, u1 r₂ (Ne.symm hr)]
    · intro r hne; rw [hu]; exact u1 r hne
    · rw [hu]; exact u2

/-- Independence of "a" and "b", registered with the items 1 and 2. -/
theorem per_key_independence_witness :
    ("a" : Key) ≠ "b" ∧ item worldA1b 0 "a" = some 1 ∧ item worldA1b 0 "b" = some 2 ∧
    (1 : ItemRef) ≠ 2 ∧
    ((instantiate worldA1b 0 "a").2.items 2).Instance = (worldA1b.items 2).Instance ∧
    ((uninstantiate worldA1b 0 "a").items 2).Instance = (worldA1b.items 2).Instance ∧
    (uninstantiate worldA1b 0 "a").maps = worldA1b.maps :=
  ⟨by decide, rfl, rfl, by decide,
    (per_key_independence worldA1b 0 "a" "b" 1 2 (by decide) rfl rfl (by decide)).1.2.2.1,
    (per_key_independence worldA1b 0 "a" "b" 1 2 (by decide) rfl rfl (by decide)).2.2.2.1,
    (per_key_independence worldA1b 0 "a" "b" 1 2 (by decide) rfl rfl (by decide)).2.2.1⟩

/-! ## Entries are never removed -/

theorem run_noNull (ops : List Op) (w w' : World) (hrun : run w ops = some w') (f : FacRef)
    (hnn : QHash.NoNull (w.factories f).RegisteredItemMap) :
    QHash.NoNull (w'.factories f).RegisteredItemMap := by
  induction ops generalizing w with
  | nil =>
    simp only [run, Option.some.injEq] at hrun
    subst hrun; exact hnn
  | cons op ops ih =>
    simp only [run] at hrun
    cases hs : step w op with
    | none => simp [hs] at hrun
    | some w₁ =>
      simp only [hs] at hrun
      exact ih w₁ hrun (step_keys w w₁ op hs f hnn).2.1

theorem ctor_noNull (w₀ : World) (f : FacRef) :
    QHash.NoNull ((ctkAbstractFactory.ctkAbstractFactory w₀ f).factories f).RegisteredItemMap := by
  intro e he
  simp [ctkAbstractFactory.ctkAbstractFactory] at he

/-- C15 (no un-registration): in every state of a factory (reached from its
construction by public operations on any factories) and for every public
operation, every key of the local map is still there afterwards with the same
item; the local map changes only when `registerItem` returns true on this
factory, and then by one new entry for a key it did not have. -/
theorem no_unregistration (w₀ : World) (f : FacRef) (ops : List Op) (w : World)
    (hrun : run (ctkAbstractFactory.ctkAbstractFactory w₀ f) ops = some w)
    (op : Op) (w' : World) (hstep : step w op = some w') :
    (∀ k h, QHash.find (w.factories f).RegisteredItemMap k = some h →
      QHash.find (w'.factories f).RegisteredItemMap k = some h) ∧
    ((w'.factories f).RegisteredItemMap = (w.factories f).RegisteredItemMap ∨
      ∃ key p, op = Op.registerItem f key (some p) ∧
        (registerItem w f key (some p)).map Prod.fst = some true ∧
        QHash.find (w.factories f).RegisteredItemMap key = none ∧
        (w'.factories f).RegisteredItemMap =
          (w.factories f).RegisteredItemMap ++ [(key, some p)]) := by
  have hnn := run_noNull ops _ w hrun f (ctor_noNull w₀ f)
  rcases step_local w w' op hstep f with h | ⟨key, p, rfl, -, hi, htrue, h⟩
  · exact ⟨fun k v hk => by rw [h]; exact hk, Or.inl h⟩
  · have hnot := QHash.not_mem_of_unresolved _ key hnn hi
    have hnone := (QHash.find_eq_none_iff _ key).mpr hnot
    constructor
    · intro k v hk
      have hne : k ≠ key := by
        rintro rfl
        rw [hnone] at hk; cases hk
      rw [h, QHash.find_insert_ne _ _ _ _ hne]; exact hk
    · right
      exact ⟨key, p, rfl, htrue, hnone, by rw [h, QHash.insert_of_not_mem _ _ _ hnot]⟩

/-- No un-registration after "b" and "a" have been registered, for a call of
`setSharedItems` with a null map. -/
theorem no_unregistration_witness :
    run (ctkAbstractFactory.ctkAbstractFactory world0 0) opsBA = some (afterRun worldA opsBA) ∧
    step (afterRun worldA opsBA) (Op.setSharedItems 0 none) =
      some (setSharedItems (afterRun worldA opsBA) 0 none) ∧
    QHash.find ((afterRun worldA opsBA).factories 0).RegisteredItemMap "a" = some (some 1) ∧
    QHash.find ((setSharedItems (afterRun worldA opsBA) 0 none).factories 0).RegisteredItemMap
      "a" = some (some 1) :=
  ⟨rfl, rfl, by decide,
    (no_unregistration world0 0 opsBA (afterRun worldA opsBA) rfl (Op.setSharedItems 0 none)
      (setSharedItems (afterRun worldA opsBA) 0 none) rfl).1 "a" (some 1) (by decide)⟩

/-! ## Verbosity -/

theorem verboseEquiv_ite_emit {w₁ w₂ : World} (h : VerboseEquiv w₁ w₂) (c₁ c₂ : Bool)
    (e₁ e₂ : Event) (h₁ : e₁.isDiagnostic = true) (h₂ : e₂.isDiagnostic = true) :
    VerboseEquiv (if c₁ = true then w₁.emit e₁ else w₁) (if c₂ = true then w₂.emit e₂ else w₂) := by
  obtain ⟨hi, hm, hn, hf, he⟩ := h
  cases c₁ <;> cases c₂ <;>
    simp [VerboseEquiv, World.emit, hi, hm, hn, hf, he, List.filter_append, h₁, h₂]

theorem verboseEquiv_item {w₁ w₂ : World} (h : VerboseEquiv w₁ w₂) (f : FacRef) (k : Key) :
    item w₁ f k = item w₂ f k := by
  simp [item, (h.2.2.2.1 f).1]

theorem verboseEquiv_sharedItem {w₁ w₂ : World} (h : VerboseEquiv w₁ w₂) (f : FacRef)
    (k : Key) : sharedItem w₁ f k = sharedItem w₂ f k := by
  simp [sharedItem, (h.2.2.2.1 f).2, h.2.1]

theorem verboseEquiv_virtualLoad {w₁ w₂ : World} (h : VerboseEquiv w₁ w₂) (p : ItemRef) :
    (virtualLoad w₁ p).1 = (virtualLoad w₂ p).1 ∧
    VerboseEquiv (virtualLoad w₁ p).2 (virtualLoad w₂ p).2 := by
  obtain ⟨hi, hm, hn, hf, he⟩ := h
  refine ⟨by simp [virtualLoad, hi], ?_⟩
  have hd : ∀ b, (Event.load p b).isDiagnostic = false := fun _ => rfl
  simp [VerboseEquiv, virtualLoad, hi, hm, hn, hf, he, List.filter_append, hd]

/-- Two heaps that differ at most in verbosity take the same path through
`registerItem`. -/
theorem verboseEquiv_registerItem {w₁ w₂ : World} (h : VerboseEquiv w₁ w₂) (f : FacRef)
    (key : Key) (x : Option ItemRef) :
    (registerItem w₁ f key x = none ∧ registerItem w₂ f key x = none) ∨
    ∃ b u₁ u₂, registerItem w₁ f key x = some (b, u₁) ∧
      registerItem w₂ f key x = some (b, u₂) ∧ VerboseEquiv u₁ u₂ := by
  have hitem := verboseEquiv_item h f key
  have hshared := verboseEquiv_sharedItem h f key
  by_cases hc : x = none ∨ key = "" ∨ item w₁ f key ≠ none
  · right
    have hc' : x = none ∨ key = "" ∨ item w₂ f key ≠ none := by rw [← hitem]; exact hc
    exact ⟨false, _, _, registerItem_sanity w₁ f key x hc, registerItem_sanity w₂ f key x hc',
      verboseEquiv_ite_emit h _ _ _ _ rfl rfl⟩
  · have hc' : ¬ (x = none ∨ key = "" ∨ item w₂ f key ≠ none) := by rw [← hitem]; exact hc
    by_cases hs : sharedItem w₁ f key ≠ none
    · right
      have hs' : sharedItem w₂ f key ≠ none := by rw [← hshared]; exact hs
      exact ⟨false, _, _, registerItem_shared w₁ f key x hc hs,
        registerItem_shared w₂ f key x hc' hs', verboseEquiv_ite_emit h _ _ _ _ rfl rfl⟩
    · simp only [not_or, not_not] at hc hs
      obtain ⟨hh, hk, hi⟩ := hc
      obtain ⟨p, rfl⟩ := Option.ne_none_iff_exists'.mp hh
      have hi' : item w₂ f key = none := by rw [← hitem]; exact hi
      have hs' : sharedItem w₂ f key = none := by rw [← hshared]; exact hs
      obtain ⟨hl, hload⟩ := verboseEquiv_virtualLoad h p
      cases hl₁ : (virtualLoad w₁ p).1
      · right
        have hl₂ : (virtualLoad w₂ p).1 = false := by rw [← hl]; exact hl₁
        exact ⟨false, _, _, registerItem_load_false w₁ f key p hk hi hs hl₁,
          registerItem_load_false w₂ f key p hk hi' hs' hl₂, verboseEquiv_ite_emit hload _ _ _ _ rfl rfl⟩
      · have hl₂ : (virtualLoad w₂ p).1 = true := by rw [← hl]; exact hl₁
        have hptr := (h.2.2.2.1 f).2
        rcases Option.eq_none_or_eq_some (w₁.factories f).SharedRegisteredItemMap with
          hm | ⟨m, hm⟩
        · left
          exact ⟨registerItem_null w₁ f key p hk hi hl₁ hm,
            registerItem_null w₂ f key p hk hi' hl₂ (by rw [← hptr]; exact hm)⟩
        · right
          refine ⟨true, _, _, registerItem_store w₁ f key p hk hi hs hl₁ m hm,
            registerItem_store w₂ f key p hk hi' hs' hl₂ m (by rw [← hptr]; exact hm), ?_⟩
          obtain ⟨li, lm, ln, lf, le⟩ := hload
          obtain ⟨-, hm', -, hf, -⟩ := h
          refine ⟨li, ?_, ln, ?_, le⟩
          · simp [hm']
          · intro g
            by_cases hg : g = f
            · subst hg; simp [hf g]
            · simp [Function.update_noteq hg, hf g]

theorem verboseEquiv_setVerbose (w : World) (f : FacRef) (v : Bool) :
    VerboseEquiv w (setVerbose w f v) := by
  refine ⟨rfl, rfl, rfl, ?_, rfl⟩
  intro g
  by_cases hg : g = f
  · subst hg; simp [setVerbose]
  · simp [setVerbose, Function.update_noteq hg]

/-- A factory that is not verbose emits no diagnostic in `registerItem`. -/
theorem registerItem_quiet (w u : World) (f : FacRef) (key : Key) (x : Option ItemRef)
    (b : Bool) (hv : verbose w f = false) (hreg : registerItem w f key x = some (b, u)) :
    u.events.filter Event.isDiagnostic = w.events.filter Event.isDiagnostic := by
  have hd : ∀ p c, (Event.load p c).isDiagnostic = false := fun _ _ => rfl
  by_cases hc : x = none ∨ key = "" ∨ item w f key ≠ none
  · rw [registerItem_sanity w f key x hc, hv] at hreg
    simp only [Option.some.injEq, Prod.mk.injEq] at hreg
    rw [← hreg.2]; rfl
  · by_cases hs : sharedItem w f key ≠ none
    · rw [registerItem_shared w f key x hc hs, hv] at hreg
      simp only [Option.some.injEq, Prod.mk.injEq] at hreg
      rw [← hreg.2]; rfl
    · simp only [not_or, not_not] at hc hs
      obtain ⟨hh, hk, hi⟩ := hc
      obtain ⟨p, rfl⟩ := Option.ne_none_iff_exists'.mp hh
      cases hl : (virtualLoad w p).1
      · rw [registerItem_load_false w f key p hk hi hs hl, hv] at hreg
        simp only [Option.some.injEq, Prod.mk.injEq] at hreg
        rw [← hreg.2]
        simp [virtualLoad, List.filter_append, hd]
      · rcases Option.eq_none_or_eq_some (w.factories f).SharedRegisteredItemMap with
          hm | ⟨m, hm⟩
        · rw [registerItem_null w f key p hk hi hl hm] at hreg; cases hreg
        · rw [registerItem_store w f key p hk hi hs hl m hm] at hreg
          simp only [Option.some.injEq, Prod.mk.injEq] at hreg
          rw [← hreg.2]
          simp [virtualLoad, List.filter_append, hd]

/-- C16 (verbosity does not affect outcomes): for two states of the heap that
differ only in the verbose flag of the factory, `registerItem(key, item)`
returns in both or in neither, returns the same boolean, and produces the same
local maps, shared maps and items and the same calls of `load()` (the events
other than diagnostics); a factory that is not verbose emits no diagnostic. -/
theorem verbosity_irrelevant (w : World) (f : FacRef) (key : Key) (x : Option ItemRef)
    (v : Bool) :
    (registerItem (setVerbose w f v) f key x).map Prod.fst =
      (registerItem w f key x).map Prod.fst ∧
    (∀ b₁ u₁ b₂ u₂, registerItem w f key x = some (b₁, u₁) →
      registerItem (setVerbose w f v) f key x = some (b₂, u₂) →
      b₂ = b₁ ∧ u₂.maps = u₁.maps ∧ u₂.items = u₁.items ∧
      (∀ g, (u₂.factories g).RegisteredItemMap = (u₁.factories g).RegisteredItemMap ∧
        (u₂.factories g).SharedRegisteredItemMap =
          (u₁.factories g).SharedRegisteredItemMap) ∧
      u₂.events.filter (fun e => !e.isDiagnostic) =
        u₁.events.filter (fun e => !e.isDiagnostic)) ∧
    (∀ b u, verbose w f = false → registerItem w f key x = some (b, u) →
      u.events.filter Event.isDiagnostic = w.events.filter Event.isDiagnostic) := by
  have h := verboseEquiv_registerItem (verboseEquiv_setVerbose w f v) f key x
  refine ⟨?_, ?_, fun b u hv hreg => registerItem_quiet w u f key x b hv hreg⟩
  · rcases h with ⟨h₁, h₂⟩ | ⟨b, u₁, u₂, h₁, h₂, -⟩
    · rw [h₁, h₂]
    · rw [h₁, h₂]; rfl
  · intro b₁ u₁ b₂ u₂ hr₁ hr₂
    rcases h with ⟨h₁, -⟩ | ⟨b, v₁, v₂, h₁, h₂, he⟩
    · rw [h₁] at hr₁; cases hr₁
    · rw [h₁] at hr₁; rw [h₂] at hr₂
      cases hr₁; cases hr₂
      obtain ⟨hi, hm, -, hf, hev⟩ := he
      exact ⟨rfl, hm.symm, hi.symm, fun g => ⟨((hf g).1).symm, ((hf g).2).symm⟩, hev.symm⟩

/-- Verbosity at a second registration of "a": the verbose factory emits one
diagnostic, and nothing else differs. -/
theorem verbosity_irrelevant_witness :
    registerItem worldA1 0 "a" (some 2) = some (false, worldA1) ∧
    registerItem (setVerbose worldA1 0 true) 0 "a" (some 2) =
      some (false, afterRegister (setVerbose worldA1 0 true) 0 "a" (some 2)) ∧
    (afterRegister (setVerbose worldA1 0 true) 0 "a" (some 2)).events =
      worldA1.events ++ [Event.debugKeyEmptyOrExists "a" (some 2)] ∧
    (afterRegister (setVerbose worldA1 0 true) 0 "a" (some 2)).maps = worldA1.maps ∧
    (afterRegister (setVerbose worldA1 0 true) 0 "a" (some 2)).items = worldA1.items :=
  ⟨rfl, rfl, by decide,
    ((verbosity_irrelevant worldA1 0 "a" (some 2) true).2.1 false worldA1 false
      (afterRegister (setVerbose worldA1 0 true) 0 "a" (some 2)) rfl rfl).2.1,
    ((verbosity_irrelevant worldA1 0 "a" (some 2) true).2.1 false worldA1 false
      (afterRegister (setVerbose worldA1 0 true) 0 "a" (some 2)) rfl rfl).2.2.1⟩

/-! ## Presence of the shared map -/

/-- With a shared map present, `registerItem` returns. -/
theorem registerItem_defined (w : World) (f : FacRef) (key : Key) (x : Option ItemRef)
    (m : MapRef) (hm : (w.factories f).SharedRegisteredItemMap = some m) :
    ∃ b w', registerItem w f key x = some (b, w') := by
  rcases registerItem_cases w f key x with hn | ⟨w', h', -⟩ |
    ⟨p, m', w', -, -, -, -, -, -, h₁, -⟩
  · exfalso
    by_cases hc : x = none ∨ key = "" ∨ item w f key ≠ none
    · rw [registerItem_sanity w f key x hc] at hn; cases hn
    · by_cases hs : sharedItem w f key ≠ none
      · rw [registerItem_shared w f key x hc hs] at hn; cases hn
      · simp only [not_or, not_not] at hc hs
        obtain ⟨hh, hk, hi⟩ := hc
        obtain ⟨p, rfl⟩ := Option.ne_none_iff_exists'.mp hh
        cases hl : (virtualLoad w p).1
        · rw [registerItem_load_false w f key p hk hi hs hl] at hn; cases hn
        · rw [registerItem_store w f key p hk hi hs hl m hm] at hn; cases hn
  · exact ⟨false, w', h'⟩
  · exact ⟨true, w', h₁⟩

/-- A present shared map stays present through every call other than
`setSharedItems` with a null map on this factory. -/
theorem step_present (w w' : World) (op : Op) (hstep : step w op = some w') (f : FacRef)
    (hop : op ≠ Op.setSharedItems f none)
    (h : (w.factories f).SharedRegisteredItemMap ≠ none) :
    (w'.factories f).SharedRegisteredItemMap ≠ none := by
  by_cases hs : Op.setsSharedOf f op = false
  · rw [step_sharedPtr w w' op hstep f hs]; exact h
  · cases op with
    | setSharedItems g items =>
      have hg : g = f := by simpa [Op.setsSharedOf] using hs
      subst hg
      simp only [step, Option.some.injEq] at hstep
      subst hstep
      have : items ≠ none := by
        rintro rfl; exact hop rfl
      simpa [setSharedItems] using this
    | registerItem g key x => simp [Op.setsSharedOf] at hs
    | instantiate g key => simp [Op.setsSharedOf] at hs
    | uninstantiate g key => simp [Op.setsSharedOf] at hs
    | setVerbose g value => simp [Op.setsSharedOf] at hs

theorem run_present (ops : List Op) (w w' : World) (hrun : run w ops = some w') (f : FacRef)
    (hops : ∀ op ∈ ops, op ≠ Op.setSharedItems f none)
    (h : (w.factories f).SharedRegisteredItemMap ≠ none) :
    (w'.factories f).SharedRegisteredItemMap ≠ none := by
  induction ops generalizing w with
  | nil =>
    simp only [run, Option.some.injEq] at hrun
    subst hrun; exact h
  | cons op ops ih =>
    simp only [run] at hrun
    cases hs : step w op with
    | none => simp [hs] at hrun
    | some w₁ =>
      simp only [hs] at hrun
      exact ih w₁ hrun (fun o ho => hops o (List.mem_cons_of_mem _ ho))
        (step_present w w₁ op hs f (hops op (List.mem_cons_self _ _)) h)

/-- Calls on one factory that holds a shared map and is never given a null one
all return. -/
theorem run_defined (ops : List Op) (w : World) (f : FacRef)
    (hops : ∀ op ∈ ops, Op.target op = f ∧ op ≠ Op.setSharedItems f none)
    (h : (w.factories f).SharedRegisteredItemMap ≠ none) :
    ∃ w', run w ops = some w' := by
  induction ops generalizing w with
  | nil => exact ⟨w, rfl⟩
  | cons op ops ih =>
    have hstep : ∃ w₁, step w op = some w₁ := by
      have ht := (hops op (List.mem_cons_self _ _)).1
      cases op with
      | registerItem g key x =>
        simp only [Op.target] at ht
        subst ht
        obtain ⟨m, hm⟩ := Option.ne_none_iff_exists'.mp h
        obtain ⟨b, w₁, h₁⟩ := registerItem_defined w g key x m hm
        exact ⟨w₁, by simp [step, h₁]⟩
      | instantiate g key => exact ⟨_, rfl⟩
      | uninstantiate g key => exact ⟨_, rfl⟩
      | setSharedItems g items => exact ⟨_, rfl⟩
      | setVerbose g value => exact ⟨_, rfl⟩
    obtain ⟨w₁, h₁⟩ := hstep
    obtain ⟨w', h'⟩ := ih w₁ (fun o ho => hops o (List.mem_cons_of_mem _ ho))
      (step_present w w₁ op h₁ f (hops op (List.mem_cons_self _ _)).2 h)
    exact ⟨w', by simp [run, h₁, h']⟩

/-- C19 (shared map presence): calls on a newly constructed factory, none of
them `setSharedItems` with a null map, all return; and in every state reached
from a newly constructed factory by public operations on any factories, none
of them `setSharedItems` with a null map on this factory, the factory holds a
shared map, so that `registerItem` returns for every key and item (the write
into the shared map is defined) and `sharedItem` is the plain lookup in that
map (its guard against a null map is not taken). -/
theorem shared_map_present (w₀ : World) (f : FacRef) (ops : List Op) :
    ((∀ op ∈ ops, Op.target op = f ∧ op ≠ Op.setSharedItems f none) →
      ∃ w', run (ctkAbstractFactory.ctkAbstractFactory w₀ f) ops = some w') ∧
    ((∀ op ∈ ops, op ≠ Op.setSharedItems f none) →
      ∀ w', run (ctkAbstractFactory.ctkAbstractFactory w₀ f) ops = some w' →
        ∃ m, (w'.factories f).SharedRegisteredItemMap = some m ∧
          (∀ key x, ∃ b u, registerItem w' f key x = some (b, u)) ∧
          ∀ key, sharedItem w' f key =
            match QHash.find (w'.maps m) key with
            | none => none
            | some v => v) := by
  have hinit : ((ctkAbstractFactory.ctkAbstractFactory w₀ f).factories f).SharedRegisteredItemMap
      ≠ none := by
    simp [ctkAbstractFactory.ctkAbstractFactory]
  refine ⟨fun hops => run_defined ops _ f hops hinit, ?_⟩
  intro hops w' hrun
  obtain ⟨m, hm⟩ := Option.ne_none_iff_exists'.mp (run_present ops _ w' hrun f hops hinit)
  exact ⟨m, hm, fun key x => registerItem_defined w' f key x m hm,
    fun key => by simp [sharedItem, hm]⟩

/-- Presence of the shared map after calls that include `setSharedItems` with
a present map. -/
theorem shared_map_present_witness :
    (∀ op ∈ opsPresent, Op.target op = 0 ∧ op ≠ Op.setSharedItems 0 none) ∧
    run (ctkAbstractFactory.ctkAbstractFactory world0 0) opsPresent =
      some (afterRun worldA opsPresent) ∧
    (∃ w', run (ctkAbstractFactory.ctkAbstractFactory world0 0) opsPresent = some w') ∧
    ∃ m, ((afterRun worldA opsPresent).factories 0).SharedRegisteredItemMap = some m ∧
      (∀ key x, ∃ b u, registerItem (afterRun worldA opsPresent) 0 key x = some (b, u)) ∧
      ∀ key, sharedItem (afterRun worldA opsPresent) 0 key =
        match QHash.find ((afterRun worldA opsPresent).maps m) key with
        | none => none
        | some v => v :=
  ⟨by decide, rfl, (shared_map_present world0 0 opsPresent).1 (by decide),
    (shared_map_present world0 0 opsPresent).2 (by decide) (afterRun worldA opsPresent) rfl⟩

/-! ## The shared map of a new factory -/

theorem ctor_allocated (w₀ : World) (f : FacRef) (h : w₀.Allocated) :
    (ctkAbstractFactory.ctkAbstractFactory w₀ f).Allocated := by
  intro g m hg
  by_cases hgf : g = f
  · subst hgf
    simp [ctkAbstractFactory.ctkAbstractFactory] at hg
    simp [ctkAbstractFactory.ctkAbstractFactory, ← hg]
  · simp only [ctkAbstractFactory.ctkAbstractFactory, Function.update_noteq hgf] at hg
    exact Nat.lt_succ_of_lt (h g m hg)

theorem ctor_privateMaps (w₀ : World) (A B : FacRef) (hAB : A ≠ B) :
    PrivateMaps (ctkAbstractFactory.ctkAbstractFactory (ctkAbstractFactory.ctkAbstractFactory w₀ A) B)
      A B w₀.nextMap (w₀.nextMap + 1) := by
  refine ⟨?_, ?_, Nat.ne_of_lt (Nat.lt_succ_self _), ?_, ?_⟩
  · simp [ctkAbstractFactory.ctkAbstractFactory, Function.update_noteq hAB]
  · simp [ctkAbstractFactory.ctkAbstractFactory]
  · simp [ctkAbstractFactory.ctkAbstractFactory, Function.update_noteq hAB]
  · simp [ctkAbstractFactory.ctkAbstractFactory]

theorem privateMaps_symm {w : World} {A B : FacRef} {mA mB : MapRef}
    (h : PrivateMaps w A B mA mB) : PrivateMaps w B A mB mA :=
  ⟨h.2.1, h.1, Ne.symm h.2.2.1, h.2.2.2.2, h.2.2.2.1⟩

/-- A call of `registerItem` on `A` keeps the two maps private. -/
theorem registerItem_privateMaps (w w' : World) (A B : FacRef) (mA mB : MapRef) (key : Key)
    (x : Option ItemRef) (b : Bool) (hAB : A ≠ B) (h : PrivateMaps w A B mA mB)
    (hreg : registerItem w A key x = some (b, w')) : PrivateMaps w' A B mA mB := by
  obtain ⟨hA, hB, hne, hmA, hmB⟩ := h
  rcases registerItem_cases w A key x with hn | ⟨w₁, h₁, hf, hm, -⟩ |
    ⟨p, m', w₁, rfl, -, -, -, -, hm', h₁, hf, hmaps, -⟩
  · rw [hn] at hreg; cases hreg
  · rw [h₁] at hreg; cases hreg
    exact ⟨by rw [hf]; exact hA, by rw [hf]; exact hB, hne, by rw [hf, hm]; exact hmA,
      by rw [hf, hm]; exact hmB⟩
  · rw [h₁] at hreg; cases hreg
    have hmm : m' = mA := by rw [hA] at hm'; exact (Option.some.inj hm').symm
    subst hmm
    refine ⟨by simp [hf, hA], ?_, hne, ?_, ?_⟩
    · rw [hf, Function.update_noteq (Ne.symm hAB)]; exact hB
    · simp [hf, hmaps, hmA]
    · rw [hf, hmaps, Function.update_noteq (Ne.symm hAB), Function.update_noteq (Ne.symm hne)]
      exact hmB

theorem step_privateMaps (w w' : World) (op : Op) (hstep : step w op = some w')
    (A B : FacRef) (mA mB : MapRef) (hAB : A ≠ B)
    (hop : (Op.target op = A ∨ Op.target op = B) ∧ Op.isSetSharedItems op = false)
    (h : PrivateMaps w A B mA mB) : PrivateMaps w' A B mA mB := by
  have same : w'.maps = w.maps →
      (∀ g, (w'.factories g).RegisteredItemMap = (w.factories g).RegisteredItemMap ∧
        (w'.factories g).SharedRegisteredItemMap = (w.factories g).SharedRegisteredItemMap) →
      PrivateMaps w' A B mA mB := by
    intro hm hf
    obtain ⟨hA, hB, hne, hmA, hmB⟩ := h
    exact ⟨by rw [(hf A).2]; exact hA, by rw [(hf B).2]; exact hB, hne,
      by rw [hm, (hf A).1]; exact hmA, by rw [hm, (hf B).1]; exact hmB⟩
  cases op with
  | registerItem g key x =>
    simp only [step, Option.map_eq_some'] at hstep
    obtain ⟨⟨b, w''⟩, hreg, rfl⟩ := hstep
    rcases hop.1 with hg | hg
    · simp only [Op.target] at hg; subst hg
      exact registerItem_privateMaps w w'' g B mA mB key x b hAB h hreg
    · simp only [Op.target] at hg; subst hg
      exact privateMaps_symm
        (registerItem_privateMaps w w'' g A mB mA key x b (Ne.symm hAB) (privateMaps_symm h) hreg)
  | instantiate g key =>
    simp only [step, Option.some.injEq] at hstep
    subst hstep
    exact same (factory_instantiate_frame w g key).2.1
      (fun g' => by rw [(factory_instantiate_frame w g key).1]; exact ⟨rfl, rfl⟩)
  | uninstantiate g key =>
    simp only [step, Option.some.injEq] at hstep
    subst hstep
    exact same (factory_uninstantiate_frame w g key).2.1
      (fun g' => by rw [(factory_uninstantiate_frame w g key).1]; exact ⟨rfl, rfl⟩)
  | setSharedItems g items => simp [Op.isSetSharedItems] at hop
  | setVerbose g value =>
    simp only [step, Option.some.injEq] at hstep
    subst hstep
    refine same rfl (fun g' => ?_)
    by_cases hg : g' = g
    · subst hg; simp [setVerbose]
    · simp [setVerbose, Function.update_noteq hg]

theorem run_privateMaps (ops : List Op) (w w' : World) (hrun : run w ops = some w')
    (A B : FacRef) (mA mB : MapRef) (hAB : A ≠ B)
    (hops : ∀ op ∈ ops, (Op.target op = A ∨ Op.target op = B) ∧ Op.isSetSharedItems op = false)
    (h : PrivateMaps w A B mA mB) : PrivateMaps w' A B mA mB := by
  induction ops generalizing w with
  | nil =>
    simp only [run, Option.some.injEq] at hrun
    subst hrun; exact h
  | cons op ops ih =>
    simp only [run] at hrun
    cases hs : step w op with
    | none => simp [hs] at hrun
    | some w₁ =>
      simp only [hs] at hrun
      exact ih w₁ hrun (fun o ho => hops o (List.mem_cons_of_mem _ ho))
        (step_privateMaps w w₁ op hs A B mA mB hAB (hops op (List.mem_cons_self _ _)) h)

theorem privateMaps_sharedItem {w : World} {A B : FacRef} {mA mB : MapRef}
    (h : PrivateMaps w A B mA mB) (k : Key) : sharedItem w B k = item w B k := by
  simp [sharedItem, item, h.2.1, h.2.2.2.2]

/-- After `A.registerItem(k, x)` has returned true, a factory B with a private
map and no k of its own does not see k and can register it. -/
theorem register_other_private (w w₁ : World) (A B : FacRef) (mA mB : MapRef) (k : Key)
    (x : Option ItemRef) (hAB : A ≠ B) (h : PrivateMaps w A B mA mB)
    (hBk : item w B k = none) (hreg : registerItem w A k x = some (true, w₁)) :
    sharedItem w₁ B k = none ∧ item w₁ B k = none ∧
    ∀ y, (virtualLoad w₁ y).1 = true →
      ∃ w₂, registerItem w₁ B k (some y) = some (true, w₂) ∧ item w₂ B k = some y := by
  have h₁ := registerItem_privateMaps w w₁ A B mA mB k x true hAB h hreg
  have hk : k ≠ "" ∧ item w₁ B k = none := by
    rcases registerItem_cases w A k x with hn | ⟨w', h', -⟩ |
      ⟨p, m', w', -, hk, -, -, -, -, hr, hf, -, -⟩
    · rw [hn] at hreg; cases hreg
    · rw [h'] at hreg; cases hreg
    · rw [hr] at hreg; cases hreg
      refine ⟨hk, ?_⟩
      rw [← hBk]
      simp [item, hf, Function.update_noteq (Ne.symm hAB)]
  have hs : sharedItem w₁ B k = none := by rw [privateMaps_sharedItem h₁ k]; exact hk.2
  refine ⟨hs, hk.2, ?_⟩
  intro y hl
  refine ⟨_, registerItem_store w₁ B k y hk.1 hk.2 hs hl mB h₁.2.1, ?_⟩
  simp [item, QHash.find_insert_self]

/-- C17 (private shared map by default): a newly constructed factory has an
empty local map, `verbose() == false` and a present, empty shared map, which no
other factory holds (all maps held so far having been allocated earlier). When
A and B have been constructed one after the other and only operations other
than `setSharedItems` have been called on them, each sees in its shared map
exactly its own registrations: after a successful `A.registerItem(k, x)`, a B
that has not registered k has `sharedItem(k)` absent and `B.registerItem(k, y)`
returns true for every item y that loads; and the same with A and B
exchanged. -/
theorem private_shared_map (w₀ : World) (A B : FacRef) (hAB : A ≠ B) :
    (((ctkAbstractFactory.ctkAbstractFactory w₀ A).factories A).RegisteredItemMap = [] ∧
      verbose (ctkAbstractFactory.ctkAbstractFactory w₀ A) A = false ∧
      ((ctkAbstractFactory.ctkAbstractFactory w₀ A).factories A).SharedRegisteredItemMap =
        some w₀.nextMap ∧
      (ctkAbstractFactory.ctkAbstractFactory w₀ A).maps w₀.nextMap = [] ∧
      (w₀.Allocated → ∀ g, g ≠ A →
        ((ctkAbstractFactory.ctkAbstractFactory w₀ A).factories g).SharedRegisteredItemMap ≠
          some w₀.nextMap)) ∧
    (∀ ops w,
      (∀ op ∈ ops, (Op.target op = A ∨ Op.target op = B) ∧ Op.isSetSharedItems op = false) →
      run (ctkAbstractFactory.ctkAbstractFactory (ctkAbstractFactory.ctkAbstractFactory w₀ A) B)
        ops = some w →
      (∀ k, sharedItem w A k = item w A k ∧ sharedItem w B k = item w B k) ∧
      (∀ k x w₁, item w B k = none → registerItem w A k x = some (true, w₁) →
        sharedItem w₁ B k = none ∧
        ∀ y, (virtualLoad w₁ y).1 = true →
          ∃ w₂, registerItem w₁ B k (some y) = some (true, w₂) ∧ item w₂ B k = some y) ∧
      (∀ k x w₁, item w A k = none → registerItem w B k x = some (true, w₁) →
        sharedItem w₁ A k = none ∧
        ∀ y, (virtualLoad w₁ y).1 = true →
          ∃ w₂, registerItem w₁ A k (some y) = some (true, w₂) ∧ item w₂ A k = some y)) := by
  constructor
  · refine ⟨by simp [ctkAbstractFactory.ctkAbstractFactory],
      by simp [verbose, ctkAbstractFactory.ctkAbstractFactory],
      by simp [ctkAbstractFactory.ctkAbstractFactory],
      by simp [ctkAbstractFactory.ctkAbstractFactory], ?_⟩
    intro hwf g hg hm
    simp only [ctkAbstractFactory.ctkAbstractFactory, Function.update_noteq hg] at hm
    exact Nat.lt_irrefl _ (hwf g _ hm)
  · intro ops w hops hrun
    have h := run_privateMaps ops _ w hrun A B _ _ hAB hops (ctor_privateMaps w₀ A B hAB)
    refine ⟨fun k => ⟨privateMaps_sharedItem (privateMaps_symm h) k, privateMaps_sharedItem h k⟩,
      ?_, ?_⟩
    · intro k x w₁ hBk hreg
      obtain ⟨hs, -, hy⟩ := register_other_private w w₁ A B _ _ k x hAB h hBk hreg
      exact ⟨hs, hy⟩
    · intro k x w₁ hAk hreg
      obtain ⟨hs, -, hy⟩ :=
        register_other_private w w₁ B A _ _ k x (Ne.symm hAB) (privateMaps_symm h) hAk hreg
      exact ⟨hs, hy⟩

/-- Two new factories: factory 0 registers item 1 under "a", and factory 1
still registers item 2 under "a". -/
theorem private_shared_map_witness :
    (0 : FacRef) ≠ 1 ∧ world0.Allocated ∧
    run worldB [] = some worldB ∧
    item worldB 1 "a" = none ∧
    registerItem worldB 0 "a" (some 1) = some (true, afterRegister worldB 0 "a" (some 1)) ∧
    (virtualLoad (afterRegister worldB 0 "a" (some 1)) 2).1 = true ∧
    sharedItem (afterRegister worldB 0 "a" (some 1)) 1 "a" = none ∧
    (∃ w₂, registerItem (afterRegister worldB 0 "a" (some 1)) 1 "a" (some 2) = some (true, w₂) ∧
      item w₂ 1 "a" = some 2) ∧
    (∀ g, g ≠ 0 → (worldA.factories g).SharedRegisteredItemMap ≠ some 0) :=
  ⟨by decide, fun g m h => by simp [world0] at h, rfl, rfl, rfl, rfl,
    (((private_shared_map world0 0 1 (by decide)).2 [] worldB (fun _ h => nomatch h) rfl).2.1
      "a" (some 1) (afterRegister worldB 0 "a" (some 1)) rfl rfl).1,
    (((private_shared_map world0 0 1 (by decide)).2 [] worldB (fun _ h => nomatch h) rfl).2.1
      "a" (some 1) (afterRegister worldB 0 "a" (some 1)) rfl rfl).2 2 rfl,
    (private_shared_map world0 0 1 (by decide)).1.2.2.2.2
      (fun g m h => by simp [world0] at h)⟩

/-! ## The instance of an item -/

theorem instantiated_iff (w : World) (r : ItemRef) :
    ctkAbstractFactoryItem.instantiated w r = true ↔ (w.items r).Instance ≠ none := by
  simp [ctkAbstractFactoryItem.instantiated]

/-- The calls on an item leave its instanciator as it is. -/
theorem itemStep_instanciator (w : World) (r : ItemRef) (op : ItemOp) :
    ((itemStep w r op).items r).instanciator = (w.items r).instanciator := by
  cases op with
  | instantiate =>
    simp only [itemStep, ctkAbstractFactoryItem.instantiate]
    cases (w.items r).Instance <;> simp [virtualInstanciator]
  | uninstantiate =>
    simp only [itemStep, ctkAbstractFactoryItem.uninstantiate]
    cases (w.items r).Instance <;> simp
  | setVerbose v => simp [itemStep, ctkAbstractFactoryItem.setVerbose]

/-- An instance is held only if `instantiate()` has been called and not undone;
with an instanciator that never returns null, the converse holds as well. -/
theorem itemRun_pending (ops : List ItemOp) (w : World) (r : ItemRef) (called : Bool)
    (h : (w.items r).Instance ≠ none → called = true) :
    (((itemRun w r ops).items r).Instance ≠ none → ItemOp.pending called ops = true) ∧
    ((∀ d, ((w.items r).instanciator d).1 ≠ none) →
      ((w.items r).Instance ≠ none ↔ called = true) →
      (((itemRun w r ops).items r).Instance ≠ none ↔ ItemOp.pending called ops = true)) := by
  induction ops generalizing w called with
  | nil => exact ⟨h, fun _ hiff => hiff⟩
  | cons op ops ih =>
    have hinst := itemStep_instanciator w r op
    cases op with
    | instantiate =>
      obtain ⟨h1, h2⟩ := ih (itemStep w r ItemOp.instantiate) true (fun _ => rfl)
      refine ⟨h1, fun hd _ => h2 (by rw [hinst]; exact hd) ?_⟩
      simp only [iff_true]
      show ((ctkAbstractFactoryItem.instantiate w r).2.items r).Instance ≠ none
      rw [item_instantiate_result]
      cases hI : (w.items r).Instance with
      | some o => rw [item_instantiate_held w r o hI]; simp
      | none => rw [(item_instantiate_fresh w r hI).1]; exact hd _
    | uninstantiate =>
      have hnone : ((itemStep w r ItemOp.uninstantiate).items r).Instance = none :=
        item_uninstantiate_instance w r
      obtain ⟨h1, h2⟩ := ih (itemStep w r ItemOp.uninstantiate) false
        (fun hne => absurd hnone hne)
      exact ⟨h1, fun hd _ => h2 (by rw [hinst]; exact hd) (by simp [hnone])⟩
    | setVerbose v =>
      have hsame : ((itemStep w r (ItemOp.setVerbose v)).items r).Instance =
          (w.items r).Instance := by
        simp [itemStep, ctkAbstractFactoryItem.setVerbose]
      obtain ⟨h1, h2⟩ := ih (itemStep w r (ItemOp.setVerbose v)) called
        (by rw [hsame]; exact h)
      exact ⟨h1, fun hd hiff => h2 (by rw [hinst]; exact hd) (by rw [hsame]; exact hiff)⟩

theorem itemRun_append (ops : List ItemOp) (w : World) (r : ItemRef) (op : ItemOp) :
    itemRun w r (ops ++ [op]) = itemStep (itemRun w r ops) r op := by
  induction ops generalizing w with
  | nil => rfl
  | cons o ops ih => exact ih (itemStep w r o)

/-- C12, as stated, fails for an instanciator that builds nothing: on the item
constructed at address 9, whose instanciator returns the null pointer,
`instantiated()` is false immediately after `instantiate()`, although
`instantiate()` has been called and not undone. -/
theorem instance_invariant_counterexample :
    ctkAbstractFactoryItem.instantiated worldNull 9 = false ∧
    (ctkAbstractFactoryItem.instantiate worldNull 9).1 = none ∧
    ctkAbstractFactoryItem.instantiated (itemRun worldNull 9 [ItemOp.instantiate]) 9 = false ∧
    ItemOp.pending false [ItemOp.instantiate] = true := by
  decide

/-- C12 (instance invariant of an item), amended: in every state reached from a
newly constructed item by `instantiate()`, `uninstantiate()` and
`setVerbose()`, `instantiated()` is true exactly when an instance is held; an
instance is held only if `instantiate()` has been called and not undone since
by `uninstantiate()`, and exactly then when the instanciator never returns
null; a new item reports false, `instantiated()` after `instantiate()` is true
exactly when that call returned a non-null instance, and it is false after
every `uninstantiate()`. -/
theorem instance_invariant (w₀ : World) (r : ItemRef) (derived : Nat)
    (load : Nat → Bool × Nat) (loadErrorString : Nat → String)
    (instanciator : Nat → Option Obj × Nat) (ops : List ItemOp) :
    ctkAbstractFactoryItem.instantiated
      (ctkAbstractFactoryItem.ctkAbstractFactoryItem w₀ r derived load loadErrorString
        instanciator) r = false ∧
    (ctkAbstractFactoryItem.instantiated
        (itemRun (ctkAbstractFactoryItem.ctkAbstractFactoryItem w₀ r derived load
          loadErrorString instanciator) r ops) r = true ↔
      ((itemRun (ctkAbstractFactoryItem.ctkAbstractFactoryItem w₀ r derived load
        loadErrorString instanciator) r ops).items r).Instance ≠ none) ∧
    (ctkAbstractFactoryItem.instantiated
        (itemRun (ctkAbstractFactoryItem.ctkAbstractFactoryItem w₀ r derived load
          loadErrorString instanciator) r ops) r = true →
      ItemOp.pending false ops = true) ∧
    ((∀ d, (instanciator d).1 ≠ none) →
      (ctkAbstractFactoryItem.instantiated
          (itemRun (ctkAbstractFactoryItem.ctkAbstractFactoryItem w₀ r derived load
            loadErrorString instanciator) r ops) r = true ↔
        ItemOp.pending false ops = true)) ∧
    (ctkAbstractFactoryItem.instantiated
        (itemRun (ctkAbstractFactoryItem.ctkAbstractFactoryItem w₀ r derived load
          loadErrorString instanciator) r (ops ++ [ItemOp.instantiate])) r =
      (ctkAbstractFactoryItem.instantiate
        (itemRun (ctkAbstractFactoryItem.ctkAbstractFactoryItem w₀ r derived load
          loadErrorString instanciator) r ops) r).1.isSome) ∧
    ctkAbstractFactoryItem.instantiated
      (itemRun (ctkAbstractFactoryItem.ctkAbstractFactoryItem w₀ r derived load
        loadErrorString instanciator) r (ops ++ [ItemOp.uninstantiate])) r = false := by
  have hnew : ((ctkAbstractFactoryItem.ctkAbstractFactoryItem w₀ r derived load loadErrorString
      instanciator).items r).Instance = none := by
    simp [ctkAbstractFactoryItem.ctkAbstractFactoryItem]
  have hfun : ((ctkAbstractFactoryItem.ctkAbstractFactoryItem w₀ r derived load loadErrorString
      instanciator).items r).instanciator = instanciator := by
    simp [ctkAbstractFactoryItem.ctkAbstractFactoryItem]
  obtain ⟨h1, h2⟩ := itemRun_pending ops
    (ctkAbstractFactoryItem.ctkAbstractFactoryItem w₀ r derived load loadErrorString
      instanciator) r false (fun hne => absurd hnew hne)
  refine ⟨by simp [ctkAbstractFactoryItem.instantiated, hnew], instantiated_iff _ r, ?_, ?_, ?_, ?_⟩
  · intro h; exact h1 ((instantiated_iff _ r).mp h)
  · intro hd
    rw [instantiated_iff]
    exact h2 (by rw [hfun]; exact hd) (by simp [hnew])
  · rw [itemRun_append]
    simp only [itemStep, ctkAbstractFactoryItem.instantiated, item_instantiate_result]
    cases (ctkAbstractFactoryItem.instantiate _ r).1 <;> rfl
  · rw [itemRun_append]
    simp [itemStep, ctkAbstractFactoryItem.instantiated, item_uninstantiate_instance]

/-- The invariant for an item whose instanciator returns the object 5, after
`instantiate()`, `setVerbose(true)`, `uninstantiate()` and `instantiate()`. -/
theorem instance_invariant_witness :
    (∀ d : Nat, ((fun n : Nat => ((some 5 : Option Obj), n)) d).1 ≠ none) ∧
    ItemOp.pending false
      [ItemOp.instantiate, ItemOp.setVerbose true, ItemOp.uninstantiate,
        ItemOp.instantiate] = true ∧
    ctkAbstractFactoryItem.instantiated
      (itemRun (ctkAbstractFactoryItem.ctkAbstractFactoryItem world0 9 0 (fun d => (true, d))
        (fun _ => "") (fun n => (some 5, n))) 9
        [ItemOp.instantiate, ItemOp.setVerbose true, ItemOp.uninstantiate,
          ItemOp.instantiate]) 9 = true :=
  ⟨fun _ => by simp, rfl,
    ((instance_invariant world0 9 0 (fun d => (true, d)) (fun _ => "") (fun n => (some 5, n))
      [ItemOp.instantiate, ItemOp.setVerbose true, ItemOp.uninstantiate,
        ItemOp.instantiate]).2.2.2.1 (fun _ => by simp)).mpr rfl⟩

/-! ## Registration status messages -/

theorem QString.scan_lits (dv : Char → Option Nat) (l r : List Char)
    (hl : ∀ c ∈ l, c ≠ '%') :
    QString.scan dv 0 (l ++ r) = l.map Piece.lit ++ QString.scan dv 0 r := by
  induction l with
  | nil => rfl
  | cons c l ih =>
    have hc : c ≠ '%' := hl c (List.mem_cons_self _ _)
    have ih' := ih (fun d hd => hl d (List.mem_cons_of_mem _ hd))
    simp only [List.cons_append, QString.scan, hc, if_false, List.map_cons]
    exact congrArg _ ih'

theorem QString.minEscape_lits (l : List Char) (ps : List Piece) :
    QString.minEscape (l.map Piece.lit ++ ps) = QString.minEscape ps := by
  induction l with
  | nil => rfl
  | cons c l ih => simpa [QString.minEscape] using ih

theorem QString.replaceEscapes_lits (n : Nat) (a l : List Char) (ps : List Piece) :
    QString.replaceEscapes n a (l.map Piece.lit ++ ps) = l ++ QString.replaceEscapes n a ps := by
  induction l with
  | nil => rfl
  | cons c l ih => simp [QString.replaceEscapes, ih]

/-- The pieces of the format string of `displayRegistrationStatus`. -/
theorem QString.scan_format (dv : Char → Option Nat) (h1 : dv '1' = some 1)
    (h2 : dv '2' = some 2) (hs : dv ' ' = none) (hb : dv ']' = none) :
    QString.scan dv 0 ['%', '1', ' ', '[', '%', '2', ']'] =
      [Piece.marker 1 ['%', '1'], Piece.lit ' ', Piece.lit '[', Piece.marker 2 ['%', '2'],
       Piece.lit ']'] := by
  have e1 : ('1' : Char) ≠ 'L' := by decide
  have e2 : ('2' : Char) ≠ 'L' := by decide
  have e3 : (' ' : Char) ≠ '%' := by decide
  have e4 : ('[' : Char) ≠ '%' := by decide
  have e5 : (']' : Char) ≠ '%' := by decide
  simp [QString.scan, QString.markerAt, QString.markerDigits, h1, h2, hs, hb, e1, e2, e3, e4, e5,
    List.take]

/-- The end of the message before the status is filled in. -/
theorem QString.scan_tail (dv : Char → Option Nat)
    (h2 : dv '2' = some 2) (hb : dv ']' = none) :
    QString.scan dv 0 [' ', '[', '%', '2', ']'] =
      [Piece.lit ' ', Piece.lit '[', Piece.marker 2 ['%', '2'], Piece.lit ']'] := by
  have e2 : ('2' : Char) ≠ 'L' := by decide
  have e3 : (' ' : Char) ≠ '%' := by decide
  have e4 : ('[' : Char) ≠ '%' := by decide
  have e5 : (']' : Char) ≠ '%' := by decide
  simp [QString.scan, QString.markerAt, QString.markerDigits, h2, hb, e2, e3, e4, e5, List.take]

/-- The first `arg` of `displayRegistrationStatus`: the description and a space
in a field of 70 characters, followed by the rest of the format. -/
theorem QString.arg_description (dv : Char → Option Nat) (h1 : dv '1' = some 1)
    (h2 : dv '2' = some 2) (hs : dv ' ' = none) (hb : dv ']' = none)
    (description : String) :
    QString.arg dv "%1 [%2]" (description ++ " ") (-70) '.' =
      String.mk ((description.toList ++ ' ' :: List.replicate (69 - description.length) '.') ++
        [' ', '[', '%', '2', ']']) := by
  have hfmt : ("%1 [%2]" : String).toList = ['%', '1', ' ', '[', '%', '2', ']'] := rfl
  have hD : (description ++ " ").toList = description.toList ++ [' '] := by
    simp
  have hlen : description.toList.length = description.length := rfl
  have hpad : QString.padded (description.toList ++ [' ']) (-70) '.' =
      description.toList ++ ' ' :: List.replicate (69 - description.length) '.' := by
    have hneg : ¬ ((-70 : Int) > 0) := by decide
    have hlt : (-70 : Int) < 0 := by decide
    have habs : (-70 : Int).natAbs = 70 := rfl
    simp only [QString.padded, hneg, hlt, if_true, if_false, habs, List.length_append,
      List.length_singleton, hlen, List.append_assoc, List.singleton_append]
    congr 3
    omega
  simp only [QString.arg, hfmt, QString.scan_format dv h1 h2 hs hb, QString.minEscape, hD, hpad,
    QString.replaceEscapes]
  simp

/-- The message of `displayRegistrationStatus` for a description without `%`. -/
theorem displayRegistrationStatus_msg (dv : Char → Option Nat) (h1 : dv '1' = some 1)
    (h2 : dv '2' = some 2) (hs : dv ' ' = none) (hb : dv ']' = none)
    (description status : String) (hd : ∀ c ∈ description.toList, c ≠ '%') :
    QString.arg dv (QString.arg dv "%1 [%2]" (description ++ " ") (-70) '.') status 0 ' ' =
      statusMessage description status := by
  rw [QString.arg_description dv h1 h2 hs hb]
  have hP : ∀ c ∈ description.toList ++ ' ' :: List.replicate (69 - description.length) '.',
      c ≠ '%' := by
    intro c hc
    rcases List.mem_append.mp hc with hc | hc
    · exact hd c hc
    · rcases List.mem_cons.mp hc with hc | hc
      · subst hc; decide
      · rw [List.eq_of_mem_replicate hc]; decide
  have hscan := QString.scan_lits dv _ [' ', '[', '%', '2', ']'] hP
  rw [QString.scan_tail dv h2 hb] at hscan
  have hpad : QString.padded status.toList 0 ' ' = status.toList := by
    simp [QString.padded]
  have hmin : QString.minEscape
      [Piece.lit ' ', Piece.lit '[', Piece.marker 2 ['%', '2'], Piece.lit ']'] = some 2 := rfl
  have hrep : QString.replaceEscapes 2 status.toList
      [Piece.lit ' ', Piece.lit '[', Piece.marker 2 ['%', '2'], Piece.lit ']'] =
      ' ' :: '[' :: status.toList ++ [']'] := by
    simp [QString.replaceEscapes]
  show (match QString.minEscape (QString.scan dv 0
      ((description.toList ++ ' ' :: List.replicate (69 - description.length) '.') ++
        [' ', '[', '%', '2', ']'])) with
    | none => _
    | some n => String.mk (QString.replaceEscapes n (QString.padded status.toList 0 ' ')
        (QString.scan dv 0
          ((description.toList ++ ' ' :: List.replicate (69 - description.length) '.') ++
            [' ', '[', '%', '2', ']'])))) = _
  rw [hscan, QString.minEscape_lits, hmin]
  simp only [QString.replaceEscapes_lits, hpad, hrep, statusMessage, List.append_assoc,
    List.cons_append]

/-- C18, as stated, fails on the layout of the message: for the description
"ab" and the status "OK" the message is "ab", a space and 67 dots before
" [OK]". The filler stands on the right of the description, after a space that
counts in the 70 characters; this is neither the description with the filler on
its left nor the description directly followed by the filler. -/
theorem status_format_counterexample :
    displayRegistrationStatus asciiDigitValue QtMsgType.QtWarningMsg "ab" "OK" true =
      [(Sink.qWarning,
        "ab ................................................................... [OK]")] ∧
    displayRegistrationStatus asciiDigitValue QtMsgType.QtWarningMsg "ab" "OK" true ≠
      [(Sink.qWarning, specStatusMessage "ab" "OK")] ∧
    displayRegistrationStatus asciiDigitValue QtMsgType.QtWarningMsg "ab" "OK" true ≠
      [(Sink.qWarning, String.mk ("ab".toList ++ List.replicate 68 '.') ++ " [OK]")] := by
  decide

/-- A description that holds a place marker takes the status in the place of
the marker, and the brackets keep `%2`. -/
theorem marker_in_description_example :
    displayRegistrationStatus asciiDigitValue QtMsgType.QtWarningMsg "%1" "OK" true =
      [(Sink.qWarning,
        "OK ................................................................... [%2]")] := by
  decide

/-- C18 (status message format), amended: for a description without `%` and
every status, `displayRegistrationStatus` builds the description followed by a
space, filled on the right with '.' up to 70 characters, followed by a space,
'[', the status and ']'. The message has max(70, length(description) + 1) + 3 +
length(status) characters, hence at least 70 + 3 + length(status), and ends
with " [status]". It goes to exactly one handler, the one of the message type,
when `display` is true, and to none when `display` is false. -/
theorem status_format (dv : Char → Option Nat) (h1 : dv '1' = some 1)
    (h2 : dv '2' = some 2) (hs : dv ' ' = none) (hb : dv ']' = none)
    (type : QtMsgType) (description status : String)
    (hd : ∀ c ∈ description.toList, c ≠ '%') :
    displayRegistrationStatus dv type description status true =
      [(type.sink, statusMessage description status)] ∧
    displayRegistrationStatus dv type description status false = [] ∧
    statusMessage description status =
      String.mk (description.toList ++ ' ' :: List.replicate (69 - description.length) '.') ++
        (" [" ++ status ++ "]") ∧
    (statusMessage description status).length =
      max 70 (description.length + 1) + 3 + status.length ∧
    70 + 3 + status.length ≤ (statusMessage description status).length := by
  have hmsg := displayRegistrationStatus_msg dv h1 h2 hs hb description status hd
  have hlen : (statusMessage description status).length =
      max 70 (description.length + 1) + 3 + status.length := by
    have hl : description.toList.length = description.length := rfl
    have hl' : status.toList.length = status.length := rfl
    simp only [statusMessage, String.length, List.length_append, List.length_cons,
      List.length_replicate, List.length_nil, hl, hl']
    omega
  refine ⟨?_, ?_, ?_, hlen, ?_⟩
  · simp only [displayRegistrationStatus, hmsg, if_true]
    cases type <;> rfl
  · simp [displayRegistrationStatus]
  · apply String.ext
    simp [statusMessage]
  · rw [hlen]; omega

/-- The format for the description "ab" and the status "OK", with the digits
of ASCII. -/
theorem status_format_witness :
    asciiDigitValue '1' = some 1 ∧ asciiDigitValue '2' = some 2 ∧
    asciiDigitValue ' ' = none ∧ asciiDigitValue ']' = none ∧
    (∀ c ∈ ("ab" : String).toList, c ≠ '%') ∧
    displayRegistrationStatus asciiDigitValue QtMsgType.QtFatalMsg "ab" "OK" true =
      [(Sink.qFatal, statusMessage "ab" "OK")] ∧
    displayRegistrationStatus asciiDigitValue QtMsgType.QtFatalMsg "ab" "OK" false = [] ∧
    70 + 3 + ("OK" : String).length ≤ (statusMessage "ab" "OK").length :=
  ⟨by decide, by decide, by decide, by decide, by decide,
    (status_format asciiDigitValue (by decide) (by decide) (by decide) (by decide)
      QtMsgType.QtFatalMsg "ab" "OK" (by decide)).1,
    (status_format asciiDigitValue (by decide) (by decide) (by decide) (by decide)
      QtMsgType.QtFatalMsg "ab" "OK" (by decide)).2.1,
    (status_format asciiDigitValue (by decide) (by decide) (by decide) (by decide)
      QtMsgType.QtFatalMsg "ab" "OK" (by decide)).2.2.2.2⟩

end CTK
